import Mathlib

/-!
Verification development for the ton-provider-web storage-provisioning
orchestrator.  The Go source (internal/backend/db and internal/backend
service worker) is shallowly embedded: the LevelDB key space is split into
its logical key ranges (file records, bag reference records, the three task
queues, the per-user refresh markers), each modelled as an association list
from the key suffix after the range prefix to the decoded record value.
A LevelDB batch write is modelled by applying each Put/Delete of the batch
to the corresponding map; time is modelled in whole unix seconds.
-/

namespace TonProviderWeb

/-- Association-list map with string keys, modelling one prefix-delimited
LevelDB key range.  `putK` models a batch `Put` (insert or replace), `eraseK`
a batch `Delete`, `lookupK` a `Get` (first matching entry). -/
abbrev KMap (β : Type) := List (String × β)

/-- LevelDB `Get`: the value stored under key `k`, if any. -/
def lookupK {β : Type} (k : String) : KMap β → Option β
  | [] => none
  | e :: es => if e.1 = k then some e.2 else lookupK k es

/-- LevelDB `Delete`: remove every entry stored under key `k`. -/
def eraseK {β : Type} (k : String) (m : KMap β) : KMap β :=
  m.filter (fun e => e.1 ≠ k)

/-- LevelDB `Put`: store `v` under key `k`, replacing any previous value. -/
def putK {β : Type} (k : String) (v : β) (m : KMap β) : KMap β :=
  (k, v) :: eraseK k m

/-- The keys of a map are pairwise distinct (true of a real key-value store;
maintained by `putK`/`eraseK`). -/
def KeysND {β : Type} (m : KMap β) : Prop := (m.map Prod.fst).Nodup

/-- Number of stored values satisfying `p`. -/
def countV {β : Type} (p : β → Bool) (m : KMap β) : Nat :=
  m.countP (fun e => p e.2)

@[simp] theorem lookupK_nil {β : Type} (k : String) : lookupK (β := β) k [] = none := rfl

@[simp] theorem lookupK_cons {β : Type} (k : String) (e : String × β) (m : KMap β) :
    lookupK k (e :: m) = if e.1 = k then some e.2 else lookupK k m := rfl

@[simp] theorem lookupK_put_self {β : Type} (k : String) (v : β) (m : KMap β) :
    lookupK k (putK k v m) = some v := by
  simp [putK]

theorem eraseK_cons {β : Type} (k : String) (e : String × β) (es : KMap β) :
    eraseK k (e :: es) = if e.1 = k then eraseK k es else e :: eraseK k es := by
  by_cases he : e.1 = k <;> simp [eraseK, List.filter_cons, he]

theorem lookupK_erase_ne {β : Type} {k k' : String} (h : k' ≠ k) (m : KMap β) :
    lookupK k' (eraseK k m) = lookupK k' m := by
  induction m with
  | nil => rfl
  | cons e es ih =>
    rw [eraseK_cons]
    by_cases he : e.1 = k
    · have hne : e.1 ≠ k' := fun h' => h (h'.symm.trans he)
      simp [he, hne, ih, Ne.symm h]
    · simp [he, ih]

@[simp] theorem lookupK_erase_self {β : Type} (k : String) (m : KMap β) :
    lookupK k (eraseK k m) = none := by
  induction m with
  | nil => rfl
  | cons e es ih =>
    rw [eraseK_cons]
    by_cases he : e.1 = k <;> simp [he, ih]

theorem lookupK_put_ne {β : Type} {k k' : String} (h : k' ≠ k) (v : β) (m : KMap β) :
    lookupK k' (putK k v m) = lookupK k' m := by
  have hne : k ≠ k' := Ne.symm h
  simp [putK, hne, lookupK_erase_ne h]

theorem eraseK_of_lookupK_none {β : Type} {k : String} {m : KMap β}
    (h : lookupK k m = none) : eraseK k m = m := by
  induction m with
  | nil => rfl
  | cons e es ih =>
    by_cases he : e.1 = k
    · simp [he] at h
    · simp only [lookupK_cons, he, if_false] at h
      rw [eraseK_cons, if_neg he, ih h]

theorem mem_of_lookupK {β : Type} {k : String} {v : β} {m : KMap β}
    (h : lookupK k m = some v) : (k, v) ∈ m := by
  induction m with
  | nil => simp at h
  | cons e es ih =>
    by_cases he : e.1 = k
    · rw [lookupK_cons, if_pos he, Option.some.injEq] at h
      refine List.mem_cons.mpr (Or.inl ?_)
      cases e
      simp_all
    · rw [lookupK_cons, if_neg he] at h
      exact List.mem_cons_of_mem _ (ih h)

theorem lookupK_of_mem {β : Type} {k : String} {v : β} {m : KMap β}
    (hnd : KeysND m) (h : (k, v) ∈ m) : lookupK k m = some v := by
  induction m with
  | nil => simp at h
  | cons e es ih =>
    simp only [KeysND, List.map_cons, List.nodup_cons] at hnd
    rcases List.mem_cons.mp h with h | h
    · simp [← h]
    · have hne : e.1 ≠ k := by
        intro he
        exact hnd.1 (he ▸ (List.mem_map_of_mem Prod.fst h))
      simp [hne, ih hnd.2 h]

theorem not_mem_keys_eraseK {β : Type} (k : String) (m : KMap β) :
    k ∉ ((eraseK k m).map Prod.fst) := by
  intro h
  rcases List.mem_map.mp h with ⟨e, he, hk⟩
  rcases List.mem_filter.mp he with ⟨_, hne⟩
  simp [hk] at hne

theorem keysND_eraseK {β : Type} {m : KMap β} (h : KeysND m) (k : String) :
    KeysND (eraseK k m) := by
  have : ((eraseK k m).map Prod.fst).Sublist (m.map Prod.fst) :=
    (List.filter_sublist m).map Prod.fst
  exact this.nodup h

theorem keysND_putK {β : Type} {m : KMap β} (h : KeysND m) (k : String) (v : β) :
    KeysND (putK k v m) := by
  simp only [KeysND, putK, List.map_cons, List.nodup_cons]
  exact ⟨not_mem_keys_eraseK k m, keysND_eraseK h k⟩

@[simp] theorem countV_nil {β : Type} (p : β → Bool) : countV p ([] : KMap β) = 0 := rfl

theorem countV_put {β : Type} (p : β → Bool) (k : String) (v : β) (m : KMap β) :
    countV p (putK k v m) = (if p v then 1 else 0) + countV p (eraseK k m) := by
  simp [countV, putK, List.countP_cons]
  by_cases h : p v <;> simp [h, Nat.add_comm]

theorem countV_erase_none {β : Type} {p : β → Bool} {k : String} {m : KMap β}
    (h : lookupK k m = none) : countV p (eraseK k m) = countV p m := by
  rw [eraseK_of_lookupK_none h]

theorem countV_erase_some {β : Type} {p : β → Bool} {k : String} {v : β} {m : KMap β}
    (hnd : KeysND m) (h : lookupK k m = some v) :
    countV p (eraseK k m) + (if p v then 1 else 0) = countV p m := by
  induction m with
  | nil => simp at h
  | cons e es ih =>
    simp only [KeysND, List.map_cons, List.nodup_cons] at hnd
    by_cases he : e.1 = k
    · rw [lookupK_cons, if_pos he, Option.some.injEq] at h
      have hnot : lookupK k es = none := by
        cases hl : lookupK k es with
        | none => rfl
        | some w =>
          exact absurd (he ▸ (List.mem_map_of_mem Prod.fst (mem_of_lookupK hl))) hnd.1
      rw [eraseK_cons, if_pos he, countV_erase_none hnot]
      simp only [countV, List.countP_cons, h]
    · rw [lookupK_cons, if_neg he] at h
      rw [eraseK_cons, if_neg he]
      simp only [countV, List.countP_cons] at ih ⊢
      have := ih hnd.2 h
      omega

theorem countV_pos_of_lookupK {β : Type} {p : β → Bool} {k : String} {v : β} {m : KMap β}
    (h : lookupK k m = some v) (hp : p v = true) : 0 < countV p m := by
  refine List.countP_pos_iff.mpr ⟨(k, v), mem_of_lookupK h, ?_⟩
  simpa using hp

theorem countV_eq_zero_of_no_ref {β : Type} {p : β → Bool} {m : KMap β}
    (hnd : KeysND m)
    (h : ∀ k v, lookupK k m = some v → p v = false) : countV p m = 0 := by
  by_contra hne
  have hpos : 0 < countV p m := Nat.pos_of_ne_zero hne
  rcases List.countP_pos_iff.mp hpos with ⟨e, he, hpe⟩
  have := h e.1 e.2 (lookupK_of_mem hnd (by cases e; exact he))
  simp_all

/-! ## Data model (internal/backend/db) -/

/-- File states (`FileStateNew = iota; FileStateBag; FileStateStored`). -/
def FileStateNew : Nat := 0

/-- State after the storage daemon packaged the file into a bag. -/
def FileStateBag : Nat := 1

/-- State after provider info was recorded for the deployed contract. -/
def FileStateStored : Nat := 2

/-- `db.Bag`: identity of a packaged content bag.  `rootHash` and
`merkleHash` stand for the hex encodings of the Go byte slices (the db layer
only ever uses `hex.EncodeToString(RootHash)` as a key). -/
structure Bag where
  rootHash : String
  merkleHash : String
  fullSize : Nat
  pieceSize : Nat
  createdAt : Int
deriving DecidableEq

/-- `db.ProviderInfo`: provider status snapshot stored on a file record.
`errorSince` is the optional time (`*time.Time`) the current error state was
first observed. -/
structure ProviderInfo where
  balance : String
  perDay : String
  status : String
  reason : String
  left : String
  lastUpdated : Int
  errorSince : Option Int
deriving DecidableEq

/-- `db.FileInfo`: one File Record, keyed by `user ++ ":" ++ path`. -/
structure FileInfo where
  state : Nat
  key : String
  ownerAddr : String
  bag : Option Bag
  filePath : String
  createdAt : Int
  provider : Option ProviderInfo
  contractAddr : String
deriving DecidableEq

/-- `db.BagInfo`: the Bag Reference Record for one content hash.  `usages` is
a Go `int`, so it is modelled as `Int`. -/
structure BagInfo where
  usages : Int
  filePath : String
deriving DecidableEq

/-- `db.CleanupTask`. -/
structure CleanupTask where
  key : String
  execAt : Int
  force : Bool
deriving DecidableEq

/-- `db.UpdateTask` (the unused `Repeat` field is omitted: nothing in the
source ever sets or reads it). -/
structure UpdateTask where
  key : String
  execAt : Int
deriving DecidableEq

/-- `db.UpdateTaskResult`. -/
structure UpdateTaskResult where
  key : String
  execAt : Int
  nextExecAt : Option Int
  providerInfo : Option ProviderInfo
deriving DecidableEq

/-- The logical content of the LevelDB store: the `file:`, `bag:`,
`store-task:`, `clean-task:`, `update-task:` and `upd-user:` key ranges. -/
structure DB where
  files : KMap FileInfo
  bags : KMap BagInfo
  storeTasks : KMap Unit
  cleanTasks : KMap CleanupTask
  updTasks : KMap Unit
  updUser : KMap Int
deriving DecidableEq

/-- The empty store. -/
def emptyDB : DB := ⟨[], [], [], [], [], []⟩

/-- `db.fileKey`. -/
def fileKey (user name : String) : String := user ++ ":" ++ name

/-- Suffix of an `update-task:%d:%s` key (the due time and the file key). -/
def updKey (t : Int) (k : String) : String := toString t ++ ":" ++ k

/-! ## Repository operations (internal/backend/db/db.go) -/

/-- `Database.StoreFileInfo`: fails if a record for the same
(user, file path) key exists, otherwise writes the record and its Store Task
marker in one batch. -/
def storeFileInfo (db : DB) (userID : String) (fileData : FileInfo) : Except String DB :=
  let key := userID ++ ":" ++ fileData.filePath
  match lookupK key db.files with
  | some _ => .error ("file data already exists for user " ++ userID ++ " with filePath "
      ++ fileData.filePath ++ ", remove it first before upload new")
  | none => .ok { db with
      files := putK key fileData db.files,
      storeTasks := putK key () db.storeTasks }

/-- `Database.CompleteStoreTask`: on a New record, advance it to Bagged,
create or increment the Bag Reference Record (deduplication), schedule the
grace-period Cleanup Task and an immediate Update Task, and delete the Store
Task, all in one batch.  Returns the `removeOnDisk` flag. -/
def completeStoreTask (db : DB) (key : String) (bag : Bag) (contractAddr : String)
    (cleanAfter now : Int) : Except String (DB × Bool) :=
  match lookupK key db.files with
  | none => .error "failed to retrieve file data"
  | some fileData0 =>
    if fileData0.state = FileStateNew then
      let fileData1 := { fileData0 with
        state := FileStateBag, bag := some bag, contractAddr := contractAddr }
      let cleanupTask : CleanupTask := ⟨key, bag.createdAt + cleanAfter, false⟩
      match lookupK bag.rootHash db.bags with
      | some existingBag =>
        let updatedBag := { existingBag with usages := existingBag.usages + 1 }
        let fileData2 := { fileData1 with filePath := existingBag.filePath }
        .ok ({ db with
          files := putK key fileData2 db.files,
          bags := putK bag.rootHash updatedBag db.bags,
          cleanTasks := putK key cleanupTask db.cleanTasks,
          updTasks := putK (updKey now key) () db.updTasks,
          storeTasks := eraseK key db.storeTasks }, true)
      | none =>
        let newBag : BagInfo := ⟨1, fileData1.filePath⟩
        .ok ({ db with
          files := putK key fileData1 db.files,
          bags := putK bag.rootHash newBag db.bags,
          cleanTasks := putK key cleanupTask db.cleanTasks,
          updTasks := putK (updKey now key) () db.updTasks,
          storeTasks := eraseK key db.storeTasks }, false)
    else
      .ok ({ db with storeTasks := eraseK key db.storeTasks }, false)

/-- `Database.CreateCleanTaskByKey`: store a forced cleanup task due now. -/
def createCleanTaskByKey (db : DB) (key : String) (now : Int) : DB :=
  { db with cleanTasks := putK key ⟨key, now, true⟩ db.cleanTasks }

/-- `Database.CreateCleanTask`. -/
def createCleanTask (db : DB) (user file : String) (now : Int) : DB :=
  createCleanTaskByKey db (fileKey user file) now

/-- `Database.CompleteCleanTask`: when `remove` is set and the record exists,
decrement the Bag Reference Record (deleting it when the count drops to
zero or below) and delete the File Record; always delete the Cleanup Task.
Returns the `removeFile` flag (bag no longer referenced). -/
def completeCleanTask (db : DB) (key : String) (remove : Bool) : DB × Bool :=
  let step1 : DB × Bool :=
    match lookupK key db.files with
    | none => (db, false)
    | some fileData =>
      if remove then
        let step2 : DB × Bool :=
          match fileData.bag with
          | none => (db, false)
          | some b =>
            match lookupK b.rootHash db.bags with
            | none => (db, false)
            | some bag =>
              if bag.usages - 1 ≤ 0 then
                ({ db with bags := eraseK b.rootHash db.bags }, true)
              else
                ({ db with bags := putK b.rootHash { bag with usages := bag.usages - 1 } db.bags },
                  false)
        ({ step2.1 with files := eraseK key step2.1.files }, step2.2)
      else (db, false)
  ({ step1.1 with cleanTasks := eraseK key step1.1.cleanTasks }, step1.2)

/-- One iteration of the `Database.CompleteUpdateTasks` loop: record provider
info (forcing state Stored), delete the old update task, and re-enqueue the
task when `nextExecAt` is set. -/
def applyUpdateResult (db : DB) (r : UpdateTaskResult) : DB :=
  let db1 := match r.providerInfo with
    | some pi =>
      match lookupK r.key db.files with
      | some fi => { db with
          files := putK r.key { fi with state := FileStateStored, provider := some pi } db.files }
      | none => db
    | none => db
  let db2 := { db1 with updTasks := eraseK (updKey r.execAt r.key) db1.updTasks }
  match r.nextExecAt with
  | some t => { db2 with updTasks := putK (updKey t r.key) () db2.updTasks }
  | none => db2

/-- `Database.CompleteUpdateTasks`: apply a batch of update-task results. -/
def completeUpdateTasks (db : DB) (rs : List UpdateTaskResult) : DB :=
  rs.foldl applyUpdateResult db

/-- Prefix test on character lists (modelling `strings.HasPrefix` /
LevelDB's `util.BytesPrefix` range). -/
def isPrefixL : List Char → List Char → Bool
  | [], _ => true
  | _ :: _, [] => false
  | a :: as, b :: bs => a == b && isPrefixL as bs

/-- `Database.GetFilesByUser`: the records in the user's key range
(prefix `file:userID:`). -/
def getFilesByUser (db : DB) (userID : String) : List FileInfo :=
  (db.files.filter (fun e => isPrefixL (userID ++ ":").data e.1.data)).map (fun e => e.2)

/-- `Database.RefreshUserIfNeeded`: when the user's last refresh marker is
older than `gapSec`, enqueue an immediate (time-0) update task per file key
and bump the marker. -/
def refreshUserIfNeeded (db : DB) (userID : String) (updateKeys : List String)
    (gapSec now : Int) : DB :=
  let timeVal : Int := match lookupK userID db.updUser with
    | some t => t
    | none => 0
  if now - gapSec < timeVal then db
  else
    { db with
      updTasks := updateKeys.foldl (fun m file => putK (updKey 0 (fileKey userID file)) () m)
        db.updTasks,
      updUser := putK userID now db.updUser }

/-! ## Service layer (internal/backend service worker)

External collaborators (storage daemon, chain client, provider transport)
are modelled as per-task oracles carrying the outcome the Go code branches
on.  The local upload directory is modelled as the list of present
`owner/fileName` paths (relative to the storage base directory). -/

/-- `Service.freeStore` is always `15 * time.Minute`; in seconds. -/
def freeStoreSec : Int := 900

/-- Service-visible state: the store plus the local upload directory. -/
structure SState where
  db : DB
  disk : List String
deriving DecidableEq

/-- The file record `Service.StoreFile` constructs before calling
`StoreFileInfo` (remaining fields are Go zero values). -/
def mkNewFileInfo (userAddr cleanName : String) (now : Int) : FileInfo :=
  { state := FileStateNew, key := "", ownerAddr := userAddr, bag := none,
    filePath := cleanName, createdAt := now, provider := none, contractAddr := "" }

/-- The pending test of the `Service.StoreFile` quota loop:
`file.Provider == nil || file.Provider.Status == "error"`. -/
def isPending (f : FileInfo) : Bool :=
  match f.provider with
  | none => true
  | some p => p.status == "error"

/-- The `numPending` loop of `Service.StoreFile`: true iff it returns the
"too many pending files" error. -/
def pendingLoop : Nat → List FileInfo → Bool
  | _, [] => false
  | numPending, f :: fs =>
    let numPending' := if isPending f then numPending + 1 else numPending
    if 3 ≤ numPending' then true else pendingLoop numPending' fs

/-- Occurrence of `sub` inside the list. -/
def hasSubstrL (sub : List Char) : List Char → Bool
  | [] => sub.isEmpty
  | c :: rest => isPrefixL sub (c :: rest) || hasSubstrL sub rest

/-- Substring test, modelling `strings.Contains`. -/
def hasSubstr (s sub : String) : Bool := hasSubstrL sub.data s.data

/-- `Service.StoreFile`.  `cleanBase` abstracts
`filepath.Base(filepath.Clean ·)` (OS path normalisation, external to this
package); the path separator is `'/'`.  Returns the new state and the error
message, if any (the state is returned even on error because the Go code
creates the on-disk file before `StoreFileInfo` can still fail). -/
def storeFileSvc (cleanBase : String → String) (s : SState) (userAddr fileName : String)
    (now : Int) : SState × Option String :=
  -- Go checks len(fileName) in bytes; the model counts characters, which
  -- coincides for the ASCII names exercised here.
  if 1000 < fileName.length then (s, some "file name too long")
  else
    let cleanName := cleanBase fileName
    if cleanName == "." || cleanName == "" || hasSubstr cleanName ".."
        || cleanName.data.contains '/' then
      (s, some ("invalid file name: " ++ fileName))
    else
      let fullFilePath := userAddr ++ "/" ++ cleanName
      let files := getFilesByUser s.db userAddr
      if pendingLoop 0 files then (s, some "too many pending files")
      else
        let s1 : SState := { s with
          disk := fullFilePath :: s.disk.filter (fun p => p ≠ fullFilePath) }
        match storeFileInfo s1.db userAddr (mkNewFileInfo userAddr cleanName now) with
        | .error e => (s1, some e)
        | .ok db' => ({ s1 with db := db' }, none)

/-- `Service.RemoveFile`: absent record is a silent success; a Stored record
is a conflict; otherwise a forced cleanup task is enqueued. -/
def removeFileSvc (db : DB) (userAddr fileName : String) (now : Int) :
    DB × Option String :=
  match lookupK (fileKey userAddr fileName) db.files with
  | none => (db, none)
  | some existingFile =>
    if FileStateStored ≤ existingFile.state then
      (db, some "file is paid and stored at provider")
    else
      (createCleanTask db userAddr fileName now, none)

/-- One iteration of the `Service.doStore` loop for the pending store task
`key`.  `oracle` is the outcome of the storage-daemon calls: `none` when
`CreateBag`/`GetBag`/contract-address derivation failed (the task is left in
place and retried), otherwise the packaged bag and the deterministic
contract address.  On success the returned `remove` flag deletes the
physical duplicate, after the batch commit. -/
def doStoreTask (s : SState) (key : String) (oracle : Option (Bag × String))
    (now : Int) : SState :=
  match lookupK key s.db.files with
  | none => s
  | some fi =>
    match oracle with
    | none => s
    | some (b, addr) =>
      let fullFilePath := fi.ownerAddr ++ "/" ++ fi.filePath
      match completeStoreTask s.db key b addr freeStoreSec now with
      | .error _ => s
      | .ok (db', removeFlag) =>
        { db := db',
          disk := if removeFlag then s.disk.filter (fun p => p ≠ fullFilePath) else s.disk }

/-- One iteration of the `Service.doCleanup` loop for a due cleanup task:
`rm := t.Force`, forced to true when the record exists below Stored, then
`CompleteCleanTask` (the remote `RemoveBag` call that may follow is
external and touches no local state). -/
def doCleanupTask (db : DB) (t : CleanupTask) : DB :=
  let fi := lookupK t.key db.files
  let rm := t.force || (match fi with
    | some f => decide (f.state ≤ FileStateBag)
    | none => false)
  (completeCleanTask db t.key rm).1

/-- Outcome of the storage daemon `GetBag` call inside `Service.doUpdate`. -/
inductive BagRes
  | found
  | notFound
  | fail
deriving DecidableEq

/-- Outcome of `Service.fetchContractInfo` (chain client). -/
inductive ContractRes
  | ok (balance : Int) (toProof : Nat) (perDay : Int) (left : String)
  | notDeployed
  | fail
deriving DecidableEq

/-- Outcome of the provider `RequestStorageInfo` call. -/
structure StorageInfo where
  status : String
  reason : String
deriving DecidableEq

/-- Per-task oracle for the external calls made by `Service.doUpdate`. -/
structure UpdOracle where
  bagRes : BagRes
  contract : ContractRes
  info : Option StorageInfo
deriving DecidableEq

/-- The deferred block of the `Service.doUpdate` task closure: immediate
(time-0) tasks are never rescheduled. -/
def finishUpd (t : UpdateTask) (r : UpdateTaskResult) : UpdateTaskResult :=
  if t.execAt = 0 then { r with nextExecAt := none } else r

/-- `fi.Provider.ErrorSince` when present (`nil` checks in the Go code). -/
def oldSinceOf (fi : FileInfo) : Option Int :=
  match fi.provider with
  | some p => p.errorSince
  | none => none

/-- The condition on which `Service.doUpdate` converts a persistent provider
error into a forced cleanup: status "error", a reason other than the
transient "internal provider error", and an `ErrorSince` older than the
grace period. -/
def graceExpiredCalc (info : StorageInfo) (oldSince : Option Int) (now : Int) : Bool :=
  info.status == "error" && info.reason != "internal provider error"
    && (match oldSince with
        | some tErr => decide (freeStoreSec < now - tErr)
        | none => false)

/-- The `errorSince` value persisted by `Service.doUpdate`: kept (or started
now) for a non-transient error status, unset otherwise - in particular it is
never set while the reason is "internal provider error". -/
def errorSinceCalc (info : StorageInfo) (oldSince : Option Int) (now : Int) : Option Int :=
  if info.status == "error" && info.reason != "internal provider error" then
    match oldSince with
    | some tErr => some tErr
    | none => some now
  else none

/-- The fresh `db.ProviderInfo` written on a successful update. -/
def newProviderInfo (balance perDay : Int) (left : String) (info : StorageInfo)
    (errorSince : Option Int) (now : Int) : ProviderInfo :=
  { balance := toString balance, perDay := toString perDay,
    status := info.status, reason := info.reason, left := left,
    lastUpdated := now, errorSince := errorSince }

/-- One iteration of the `Service.doUpdate` loop: produces the
`UpdateTaskResult` appended to `toUpd` and the store as possibly changed by
an immediate `CreateCleanTaskByKey` call. -/
def doUpdateTask (db : DB) (t : UpdateTask) (o : UpdOracle) (now : Int) :
    DB × UpdateTaskResult :=
  let res0 : UpdateTaskResult := ⟨t.key, t.execAt, some (now + 15), none⟩
  match lookupK t.key db.files with
  | none => (db, finishUpd t { res0 with nextExecAt := none })
  | some fi =>
    match fi.bag with
    | none => (db, finishUpd t res0)
    | some _ =>
      let res1 := { res0 with providerInfo := fi.provider }
      match o.bagRes with
      | .fail => (db, finishUpd t res1)
      | .notFound =>
        (createCleanTaskByKey db t.key now, finishUpd t { res1 with nextExecAt := none })
      | .found =>
        match o.contract with
        | .notDeployed =>
          if FileStateStored ≤ fi.state then
            (createCleanTaskByKey db t.key now, finishUpd t { res1 with nextExecAt := none })
          else
            (db, finishUpd t res1)
        | .fail => (db, finishUpd t res1)
        | .ok balance _toProof perDay left =>
          match o.info with
          | none => (db, finishUpd t res1)
          | some info =>
            if graceExpiredCalc info (oldSinceOf fi) now then
              (createCleanTaskByKey db t.key now, finishUpd t { res1 with nextExecAt := none })
            else
              let pi : ProviderInfo := newProviderInfo balance perDay left info
                (errorSinceCalc info (oldSinceOf fi) now) now
              (db, finishUpd t { res1 with nextExecAt := some (now + 300),
                                           providerInfo := some pi })

/-- One iteration of the `Service.doUpdate` accumulation loop: run the task
closure and append its result to `toUpd`. -/
def updCollect (now : Int) (acc : DB × List UpdateTaskResult)
    (p : UpdateTask × UpdOracle) : DB × List UpdateTaskResult :=
  let r := doUpdateTask acc.1 p.1 p.2 now
  (r.1, acc.2 ++ [r.2])

/-- The whole `Service.doUpdate` pass over one tick's due tasks: run every
task closure (accumulating results and any immediate cleanup-task writes),
then commit all results in one `CompleteUpdateTasks` batch. -/
def doUpdatePass (db : DB) (tasks : List (UpdateTask × UpdOracle)) (now : Int) : DB :=
  let collected := tasks.foldl (updCollect now) (db, [])
  completeUpdateTasks collected.1 collected.2

/-! ## Listing (Service.ListFilesByUser) -/

/-- The `UserFileInfo` DTO served to the HTTP layer. -/
structure UserFileInfo where
  fileName : String
  createdAt : Int
  size : String
  status : String
  bagID : String
  expireAt : Option Int
  pricePerDay : String
  providerStatus : String
  providerReason : String
  contractBalance : String
  contractAddr : String
  timeLeft : String
deriving DecidableEq

/-- `map[int]string{0: "processing", 1: "deploy", 2: "stored"}[state]`
(a missing key yields the zero value `""`). -/
def statusName (s : Nat) : String :=
  if s = 0 then "processing" else if s = 1 then "deploy" else if s = 2 then "stored" else ""

/-- Two-decimal rendering of a non-negative rational, modelling the `%.2f`
formatting in `toSz` (Go formats a float64 with round-half-even; the model
rounds half up, which agrees on the values exercised here). -/
def repr2 (q : ℚ) : String :=
  let n : Int := Int.floor (q * 100 + 1 / 2)
  let frac : Int := Int.tmod n 100
  toString (Int.tdiv n 100) ++ "." ++ (if frac < 10 then "0" else "") ++ toString frac

/-- `toSz`: human-readable size. -/
def toSz (sz : Nat) : String :=
  if sz < 1024 then toString sz ++ " Bytes"
  else if sz < 1024 * 1024 then repr2 ((sz : ℚ) / 1024) ++ " KB"
  else if sz < 1024 * 1024 * 1024 then repr2 ((sz : ℚ) / (1024 * 1024)) ++ " MB"
  else repr2 ((sz : ℚ) / (1024 * 1024 * 1024)) ++ " GB"

/-- Retention test of the `ListFilesByUser` loop: a record at or below
Bagged whose `createdAt + freeStore` lies strictly in the past is skipped
(`continue`) even though it is still in the store. -/
def visibleFile (now : Int) (f : FileInfo) : Bool :=
  !(decide (f.state ≤ FileStateBag) && decide (f.createdAt + freeStoreSec < now))

/-- Conversion of a retained record into its `UserFileInfo` row. -/
def toUserFileInfo (f : FileInfo) : UserFileInfo :=
  let expireAt : Option Int :=
    if f.state ≤ FileStateBag then some (f.createdAt + freeStoreSec) else none
  let base : UserFileInfo :=
    { fileName := f.filePath, createdAt := f.createdAt, size := "",
      status := statusName f.state, bagID := "", expireAt := expireAt,
      pricePerDay := "", providerStatus := "", providerReason := "",
      contractBalance := "", contractAddr := f.contractAddr, timeLeft := "" }
  let base :=
    if FileStateBag ≤ f.state then
      match f.bag with
      | some b => { base with size := toSz b.fullSize, bagID := b.rootHash }
      | none => base
    else base
  if FileStateStored ≤ f.state then
    match f.provider with
    | some p =>
      { base with
        providerStatus := p.status, providerReason := p.reason,
        contractBalance := p.balance, pricePerDay := p.perDay, timeLeft := p.left }
    | none => base
  else base

/-- Insertion into a list sorted by `le`. -/
def insertBy {α : Type} (le : α → α → Bool) (a : α) : List α → List α
  | [] => [a]
  | b :: bs => if le a b then a :: b :: bs else b :: insertBy le a bs

/-- Insertion sort, modelling the final `sort.Slice` (any sort is a
permutation; membership is all the claims need). -/
def sortBy {α : Type} (le : α → α → Bool) : List α → List α
  | [] => []
  | a :: as => insertBy le a (sortBy le as)

/-- Comparator of the final `sort.Slice`: newest first. -/
def newerFirst (a b : UserFileInfo) : Bool := decide (b.createdAt < a.createdAt)

/-- `Service.ListFilesByUser`: the user's records, with expired not-yet-paid
entries filtered out, converted and sorted newest first.  (The
`RefreshUserIfNeeded` side call is best-effort and touches no file record;
it is modelled separately by `refreshUserIfNeeded`.) -/
def listFilesByUser (db : DB) (userAddr : String) (now : Int) : List UserFileInfo :=
  sortBy newerFirst
    (((getFilesByUser db userAddr).filter (visibleFile now)).map toUserFileInfo)

/-! ## Pricing calculator (daysLeft) -/

/-- `big.Float.Int`: truncation of an exact rational towards zero.  The Go
code computes the price with `big.Float` (binary floating point of at least
53-bit mantissa); the model computes it exactly. -/
def truncQ (q : ℚ) : Int := Int.tdiv q.num q.den

/-- Go `(*big.Int).Int64` on a value assumed representable, modelled as
two's-complement wrap-around. -/
def wrap64 (x : Int) : Int := Int.emod (x + 2 ^ 63) (2 ^ 64) - 2 ^ 63

/-- The price of one proving span:
`szMB * ratePerMBDay * (maxSpan / 86400)`, truncated to an integer. -/
def pricePerSpanInt (ratePerMBDay : Int) (szMB : ℚ) (maxSpan : Nat) : Int :=
  truncQ (szMB * (ratePerMBDay : ℚ) * ((maxSpan : ℚ) / 86400))

/-- `fmt.Sprintf("%d Days %d Hours", days, hours)` (Go `int64` division and
remainder truncate towards zero, like `Int.tdiv`/`Int.tmod`). -/
def fmtDaysHours (totalSecondsLeft : Int) : String :=
  toString (Int.tdiv totalSecondsLeft 86400) ++ " Days "
    ++ toString (Int.tdiv (Int.tmod totalSecondsLeft 86400) 3600) ++ " Hours"

/-- `daysLeft`: remaining storage time for a contract.  `elapsedSec` is the
whole-second value of `time.Since(lastProofAt)`; the Go code casts it to
`uint32` (hence the `% 2^32`) and `spansLeft` through `Int64()`.
`balance.Div` on `big.Int` is Euclidean division, i.e. `Int.ediv`. -/
def daysLeft (balance ratePerMBDay : Int) (szMB : ℚ) (maxSpan : Nat)
    (elapsedSec : Nat) : String :=
  let pricePerSpan := pricePerSpanInt ratePerMBDay szMB maxSpan
  if pricePerSpan = 0 then "Expired"
  else
    let spansLeft : Int := wrap64 (Int.ediv balance pricePerSpan)
    let ago : Nat := elapsedSec % 2 ^ 32
    let leftInCurrentSpan : Int := if ago < maxSpan then (maxSpan : Int) - (ago : Int) else 0
    let totalSecondsLeft : Int := leftInCurrentSpan + spansLeft * (maxSpan : Int)
    fmtDaysHours totalSecondsLeft

/-! ## The orchestrator as a transition system

A `Step` is one repository operation triggered by the HTTP layer or one
per-task iteration of a worker pass, with the external-call outcomes as
oracle data.  Any interleaving the running system can produce is a list of
such steps applied to the empty store. -/

/-- One observable transition of the system. -/
inductive Step
  | create (user name : String) (now : Int)
  | storePass (key : String) (oracle : Option (Bag × String)) (now : Int)
  | cleanPass (t : CleanupTask)
  | updatePass (tasks : List (UpdateTask × UpdOracle)) (now : Int)
  | removeReq (user name : String) (now : Int)
  | refresh (user : String) (keys : List String) (gap now : Int)

/-- Error results leave the store as it was. -/
def dbOrElse : Except String DB → DB → DB
  | .ok d, _ => d
  | .error _, d => d

/-- Apply one step. -/
def stepApply (s : SState) : Step → SState
  | .create u n now => { s with db := dbOrElse (storeFileInfo s.db u (mkNewFileInfo u n now)) s.db }
  | .storePass key o now => doStoreTask s key o now
  | .cleanPass t => { s with db := doCleanupTask s.db t }
  | .updatePass ts now => { s with db := doUpdatePass s.db ts now }
  | .removeReq u n now => { s with db := (removeFileSvc s.db u n now).1 }
  | .refresh u ks g now => { s with db := refreshUserIfNeeded s.db u ks g now }

/-- Run a sequence of steps from the initial (empty) state. -/
def runSteps (steps : List Step) : SState := steps.foldl stepApply ⟨emptyDB, []⟩

/-! ## Characterisation lemmas for the store operations -/

@[simp] theorem lookupK_putK {β : Type} (k k' : String) (v : β) (m : KMap β) :
    lookupK k' (putK k v m) = if k = k' then some v else lookupK k' m := by
  by_cases h : k = k'
  · subst h
    simp
  · rw [lookupK_put_ne (fun hh => h hh.symm), if_neg h]

@[simp] theorem lookupK_eraseK {β : Type} (k k' : String) (m : KMap β) :
    lookupK k' (eraseK k m) = if k = k' then none else lookupK k' m := by
  by_cases h : k = k'
  · subst h
    simp
  · rw [lookupK_erase_ne (fun hh => h hh.symm), if_neg h]

theorem completeStoreTask_of_none {db : DB} {key : String} {bag : Bag} {addr : String}
    {ca now : Int} (h : lookupK key db.files = none) :
    completeStoreTask db key bag addr ca now = .error "failed to retrieve file data" := by
  simp [completeStoreTask, h]

theorem completeStoreTask_of_notNew {db : DB} {key : String} {bag : Bag} {addr : String}
    {ca now : Int} {fd : FileInfo} (h : lookupK key db.files = some fd)
    (hs : fd.state ≠ FileStateNew) :
    completeStoreTask db key bag addr ca now =
      .ok ({ db with storeTasks := eraseK key db.storeTasks }, false) := by
  simp [completeStoreTask, h, hs]

theorem completeStoreTask_of_repeat {db : DB} {key : String} {bag : Bag} {addr : String}
    {ca now : Int} {fd : FileInfo} {bg : BagInfo}
    (h : lookupK key db.files = some fd) (hs : fd.state = FileStateNew)
    (hb : lookupK bag.rootHash db.bags = some bg) :
    completeStoreTask db key bag addr ca now = .ok
      ({ db with
        files := putK key
          { fd with state := FileStateBag, bag := some bag,
                    contractAddr := addr, filePath := bg.filePath } db.files,
        bags := putK bag.rootHash { bg with usages := bg.usages + 1 } db.bags,
        cleanTasks := putK key ⟨key, bag.createdAt + ca, false⟩ db.cleanTasks,
        updTasks := putK (updKey now key) () db.updTasks,
        storeTasks := eraseK key db.storeTasks }, true) := by
  simp [completeStoreTask, h, hs, hb]

theorem completeStoreTask_of_first {db : DB} {key : String} {bag : Bag} {addr : String}
    {ca now : Int} {fd : FileInfo}
    (h : lookupK key db.files = some fd) (hs : fd.state = FileStateNew)
    (hb : lookupK bag.rootHash db.bags = none) :
    completeStoreTask db key bag addr ca now = .ok
      ({ db with
        files := putK key
          { fd with state := FileStateBag, bag := some bag,
                    contractAddr := addr } db.files,
        bags := putK bag.rootHash ⟨1, fd.filePath⟩ db.bags,
        cleanTasks := putK key ⟨key, bag.createdAt + ca, false⟩ db.cleanTasks,
        updTasks := putK (updKey now key) () db.updTasks,
        storeTasks := eraseK key db.storeTasks }, false) := by
  simp [completeStoreTask, h, hs, hb]

theorem completeCleanTask_of_none {db : DB} {key : String} {remove : Bool}
    (h : lookupK key db.files = none) :
    completeCleanTask db key remove =
      ({ db with cleanTasks := eraseK key db.cleanTasks }, false) := by
  simp [completeCleanTask, h]

theorem completeCleanTask_of_keep {db : DB} {key : String} {fd : FileInfo}
    (h : lookupK key db.files = some fd) :
    completeCleanTask db key false =
      ({ db with cleanTasks := eraseK key db.cleanTasks }, false) := by
  simp [completeCleanTask, h]

theorem completeCleanTask_of_noBag {db : DB} {key : String} {fd : FileInfo}
    (h : lookupK key db.files = some fd) (hb : fd.bag = none) :
    completeCleanTask db key true =
      ({ db with files := eraseK key db.files,
                 cleanTasks := eraseK key db.cleanTasks }, false) := by
  simp [completeCleanTask, h, hb]

theorem completeCleanTask_of_bagAbsent {db : DB} {key : String} {fd : FileInfo} {b : Bag}
    (h : lookupK key db.files = some fd) (hb : fd.bag = some b)
    (hl : lookupK b.rootHash db.bags = none) :
    completeCleanTask db key true =
      ({ db with files := eraseK key db.files,
                 cleanTasks := eraseK key db.cleanTasks }, false) := by
  simp [completeCleanTask, h, hb, hl]

theorem completeCleanTask_of_lastRef {db : DB} {key : String} {fd : FileInfo} {b : Bag}
    {bg : BagInfo} (h : lookupK key db.files = some fd) (hb : fd.bag = some b)
    (hl : lookupK b.rootHash db.bags = some bg) (hu : bg.usages - 1 ≤ 0) :
    completeCleanTask db key true =
      ({ db with files := eraseK key db.files,
                 bags := eraseK b.rootHash db.bags,
                 cleanTasks := eraseK key db.cleanTasks }, true) := by
  simp [completeCleanTask, h, hb, hl, hu]

theorem completeCleanTask_of_moreRefs {db : DB} {key : String} {fd : FileInfo} {b : Bag}
    {bg : BagInfo} (h : lookupK key db.files = some fd) (hb : fd.bag = some b)
    (hl : lookupK b.rootHash db.bags = some bg) (hu : ¬bg.usages - 1 ≤ 0) :
    completeCleanTask db key true =
      ({ db with files := eraseK key db.files,
                 bags := putK b.rootHash { bg with usages := bg.usages - 1 } db.bags,
                 cleanTasks := eraseK key db.cleanTasks }, false) := by
  simp [completeCleanTask, h, hb, hl, hu]

/-! ## The reference-counting invariant -/

/-- The record references content hash `h`. -/
def bagRefs (h : String) (fd : FileInfo) : Bool :=
  match fd.bag with
  | some b => b.rootHash == h
  | none => false

/-- Number of File Records whose bag root hash is `h`. -/
def refCount (m : KMap FileInfo) (h : String) : Nat := countV (bagRefs h) m

/-- The store invariant maintained by every repository operation and worker
pass. -/
structure Inv (db : DB) : Prop where
  nodupFiles : KeysND db.files
  newNoBag : ∀ k fd, lookupK k db.files = some fd → fd.state = FileStateNew → fd.bag = none
  providerStored : ∀ k fd, lookupK k db.files = some fd → fd.provider ≠ none →
    fd.state = FileStateStored
  usagesEq : ∀ h bg, lookupK h db.bags = some bg → bg.usages = (refCount db.files h : Int)
  refHasBag : ∀ k fd b, lookupK k db.files = some fd → fd.bag = some b →
    lookupK b.rootHash db.bags ≠ none

theorem inv_emptyDB : Inv emptyDB := by
  constructor <;> simp [emptyDB, KeysND, refCount, countV]

theorem refCount_put_some {m : KMap FileInfo} {k : String} {w : FileInfo}
    (hnd : KeysND m) (hl : lookupK k m = some w) (v : FileInfo) (h : String) :
    refCount (putK k v m) h + (if bagRefs h w then 1 else 0) =
      (if bagRefs h v then 1 else 0) + refCount m h := by
  have h1 := countV_put (bagRefs h) k v m
  have h2 := countV_erase_some (p := bagRefs h) hnd hl
  simp only [refCount]
  omega

theorem refCount_put_none {m : KMap FileInfo} {k : String}
    (hl : lookupK k m = none) (v : FileInfo) (h : String) :
    refCount (putK k v m) h = (if bagRefs h v then 1 else 0) + refCount m h := by
  have h1 := countV_put (bagRefs h) k v m
  rw [countV_erase_none (p := bagRefs h) hl] at h1
  exact h1

theorem refCount_erase_some {m : KMap FileInfo} {k : String} {w : FileInfo}
    (hnd : KeysND m) (hl : lookupK k m = some w) (h : String) :
    refCount (eraseK k m) h + (if bagRefs h w then 1 else 0) = refCount m h :=
  countV_erase_some hnd hl

theorem bagRefs_of_none {fd : FileInfo} (h : fd.bag = none) (x : String) :
    bagRefs x fd = false := by
  simp [bagRefs, h]

theorem bagRefs_of_some {fd : FileInfo} {b : Bag} (h : fd.bag = some b) (x : String) :
    bagRefs x fd = (b.rootHash == x) := by
  simp [bagRefs, h]

/-- Operations that touch neither file records nor bag records preserve the
invariant. -/
theorem inv_congr {db db' : DB} (hInv : Inv db) (hf : db'.files = db.files)
    (hb : db'.bags = db.bags) : Inv db' := by
  constructor
  · rw [hf]
    exact hInv.nodupFiles
  · rw [hf]
    exact hInv.newNoBag
  · rw [hf]
    exact hInv.providerStored
  · rw [hf, hb]
    exact hInv.usagesEq
  · rw [hf, hb]
    exact hInv.refHasBag

theorem inv_createCleanTaskByKey {db : DB} (hInv : Inv db) (key : String) (now : Int) :
    Inv (createCleanTaskByKey db key now) :=
  inv_congr hInv rfl rfl

theorem inv_refreshUserIfNeeded {db : DB} (hInv : Inv db) (u : String)
    (ks : List String) (gap now : Int) : Inv (refreshUserIfNeeded db u ks gap now) := by
  refine inv_congr hInv ?_ ?_ <;> simp only [refreshUserIfNeeded] <;> split <;> rfl

theorem inv_removeFileSvc {db : DB} (hInv : Inv db) (u n : String) (now : Int) :
    Inv (removeFileSvc db u n now).1 := by
  unfold removeFileSvc
  cases hl : lookupK (fileKey u n) db.files with
  | none => exact hInv
  | some fd =>
    by_cases hs : FileStateStored ≤ fd.state
    · simpa [hs] using hInv
    · simpa [hs] using inv_createCleanTaskByKey hInv (fileKey u n) now

theorem inv_storeFileInfo {db db' : DB} {u : String} {fd : FileInfo}
    (hInv : Inv db) (hbag : fd.bag = none)
    (hprov : fd.provider = none) (hok : storeFileInfo db u fd = .ok db') : Inv db' := by
  cases hl : lookupK (u ++ ":" ++ fd.filePath) db.files with
  | some w => simp [storeFileInfo, hl] at hok
  | none =>
    simp only [storeFileInfo, hl, Except.ok.injEq] at hok
    subst hok
    constructor
    · exact keysND_putK hInv.nodupFiles _ _
    · intro k fd' hlk hst
      rw [lookupK_putK] at hlk
      split at hlk
      · cases hlk
        exact hbag
      · exact hInv.newNoBag k fd' hlk hst
    · intro k fd' hlk hpr
      rw [lookupK_putK] at hlk
      split at hlk
      · cases hlk
        exact absurd hprov hpr
      · exact hInv.providerStored k fd' hlk hpr
    · intro h bg hbg
      have := hInv.usagesEq h bg hbg
      rw [refCount_put_none hl, bagRefs_of_none hbag]
      simpa using this
    · intro k fd' b hlk hb
      rw [lookupK_putK] at hlk
      split at hlk
      · cases hlk
        rw [hbag] at hb
        cases hb
      · exact hInv.refHasBag k fd' b hlk hb

theorem exists_bag_of_bagRefs {fd : FileInfo} {h : String} (hr : bagRefs h fd = true) :
    ∃ b, fd.bag = some b ∧ b.rootHash = h := by
  cases hbag : fd.bag with
  | none => simp [bagRefs, hbag] at hr
  | some b =>
    refine ⟨b, rfl, ?_⟩
    simpa [bagRefs, hbag] using hr

theorem refCount_eq_zero_of_bags_none {db : DB} {h : String} (hInv : Inv db)
    (hb : lookupK h db.bags = none) : refCount db.files h = 0 := by
  refine countV_eq_zero_of_no_ref hInv.nodupFiles ?_
  intro k v hlk
  by_contra hp
  have hr : bagRefs h v = true := by
    cases hx : bagRefs h v
    · exact absurd hx hp
    · rfl
  rcases exists_bag_of_bagRefs hr with ⟨b, hbag, hroot⟩
  exact hInv.refHasBag k v b hlk hbag (hroot ▸ hb)

theorem state_new_ne_stored : FileStateNew ≠ FileStateStored := by decide

theorem inv_completeStoreTask {db : DB} {key : String} {bag : Bag} {addr : String}
    {ca now : Int} {res : DB × Bool} (hInv : Inv db)
    (hok : completeStoreTask db key bag addr ca now = .ok res) : Inv res.1 := by
  cases hl : lookupK key db.files with
  | none =>
    rw [completeStoreTask_of_none hl] at hok
    cases hok
  | some fd0 =>
    by_cases hs : fd0.state = FileStateNew
    case neg =>
      rw [completeStoreTask_of_notNew hl hs] at hok
      cases hok
      exact inv_congr hInv rfl rfl
    case pos =>
      have hbag0 : fd0.bag = none := hInv.newNoBag key fd0 hl hs
      have hprov0 : fd0.provider = none := by
        by_contra hp
        exact state_new_ne_stored (hs ▸ hInv.providerStored key fd0 hl hp)
      cases hb : lookupK bag.rootHash db.bags with
      | some bg =>
        rw [completeStoreTask_of_repeat hl hs hb] at hok
        cases hok
        dsimp only
        constructor
        · exact keysND_putK hInv.nodupFiles _ _
        · intro k fd' hlk hst
          rw [lookupK_putK] at hlk
          split at hlk
          · cases hlk
            simp [FileStateBag, FileStateNew] at hst
          · exact hInv.newNoBag k fd' hlk hst
        · intro k fd' hlk hpr
          rw [lookupK_putK] at hlk
          split at hlk
          · cases hlk
            exact absurd hprov0 hpr
          · exact hInv.providerStored k fd' hlk hpr
        · intro h bg' hbg'
          have hrc := refCount_put_some hInv.nodupFiles hl { fd0 with state := FileStateBag, bag := some bag, contractAddr := addr, filePath := bg.filePath } h
          rw [bagRefs_of_none hbag0] at hrc
          rw [lookupK_putK] at hbg'
          split at hbg'
          case isTrue hh =>
            cases hbg'
            have hrefs : bagRefs h { fd0 with state := FileStateBag, bag := some bag, contractAddr := addr, filePath := bg.filePath } = true := by
              simp [bagRefs, hh]
            rw [hrefs] at hrc
            have hold := hInv.usagesEq h bg (hh ▸ hb)
            norm_num at hrc
            dsimp only
            omega
          case isFalse hh =>
            have hold := hInv.usagesEq h bg' hbg'
            have hrefs : bagRefs h { fd0 with state := FileStateBag, bag := some bag, contractAddr := addr, filePath := bg.filePath } = false := by
              simp [bagRefs]
              exact hh
            rw [hrefs] at hrc
            norm_num at hrc
            dsimp only
            omega
        · intro k fd' b hlk hbb
          rw [lookupK_putK] at hlk
          split at hlk
          · cases hlk
            simp only at hbb
            cases hbb
            simp
          · have := hInv.refHasBag k fd' b hlk hbb
            rw [lookupK_putK]
            split
            · simp
            · exact this
      | none =>
        rw [completeStoreTask_of_first hl hs hb] at hok
        cases hok
        dsimp only
        constructor
        · exact keysND_putK hInv.nodupFiles _ _
        · intro k fd' hlk hst
          rw [lookupK_putK] at hlk
          split at hlk
          · cases hlk
            simp [FileStateBag, FileStateNew] at hst
          · exact hInv.newNoBag k fd' hlk hst
        · intro k fd' hlk hpr
          rw [lookupK_putK] at hlk
          split at hlk
          · cases hlk
            exact absurd hprov0 hpr
          · exact hInv.providerStored k fd' hlk hpr
        · intro h bg' hbg'
          have hrc := refCount_put_some hInv.nodupFiles hl { fd0 with state := FileStateBag, bag := some bag, contractAddr := addr } h
          rw [bagRefs_of_none hbag0] at hrc
          rw [lookupK_putK] at hbg'
          split at hbg'
          case isTrue hh =>
            cases hbg'
            have hzero : refCount db.files h = 0 :=
              refCount_eq_zero_of_bags_none hInv (hh ▸ hb)
            have hrefs : bagRefs h { fd0 with state := FileStateBag, bag := some bag, contractAddr := addr } = true := by
              simp [bagRefs, hh]
            rw [hrefs] at hrc
            norm_num at hrc
            dsimp only
            omega
          case isFalse hh =>
            have hold := hInv.usagesEq h bg' hbg'
            have hrefs : bagRefs h { fd0 with state := FileStateBag, bag := some bag, contractAddr := addr } = false := by
              simp [bagRefs]
              exact hh
            rw [hrefs] at hrc
            norm_num at hrc
            dsimp only
            omega
        · intro k fd' b hlk hbb
          rw [lookupK_putK] at hlk
          split at hlk
          · cases hlk
            simp only at hbb
            cases hbb
            simp
          · have := hInv.refHasBag k fd' b hlk hbb
            rw [lookupK_putK]
            split
            · simp
            · exact this

theorem inv_completeCleanTask {db : DB} (hInv : Inv db) (key : String) (remove : Bool) :
    Inv (completeCleanTask db key remove).1 := by
  cases hl : lookupK key db.files with
  | none =>
    rw [completeCleanTask_of_none hl]
    exact inv_congr hInv rfl rfl
  | some fd =>
    cases remove with
    | false =>
      rw [completeCleanTask_of_keep hl]
      exact inv_congr hInv rfl rfl
    | true =>
      cases hbag : fd.bag with
      | none =>
        rw [completeCleanTask_of_noBag hl hbag]
        constructor
        · exact keysND_eraseK hInv.nodupFiles key
        · intro k fd' hlk hst
          rw [lookupK_eraseK] at hlk
          split at hlk
          · simp at hlk
          · exact hInv.newNoBag k fd' hlk hst
        · intro k fd' hlk hpr
          rw [lookupK_eraseK] at hlk
          split at hlk
          · simp at hlk
          · exact hInv.providerStored k fd' hlk hpr
        · intro h bg' hbg'
          have hold := hInv.usagesEq h bg' hbg'
          have herase := refCount_erase_some hInv.nodupFiles hl h
          rw [bagRefs_of_none hbag] at herase
          dsimp only
          norm_num at herase
          omega
        · intro k fd' b hlk hbb
          rw [lookupK_eraseK] at hlk
          split at hlk
          · simp at hlk
          · exact hInv.refHasBag k fd' b hlk hbb
      | some b =>
        cases hlb : lookupK b.rootHash db.bags with
        | none => exact absurd hlb (hInv.refHasBag key fd b hl hbag)
        | some bg =>
          have hcnt := hInv.usagesEq b.rootHash bg hlb
          have hrefsKey : bagRefs b.rootHash fd = true := by
            simp [bagRefs, hbag]
          by_cases hu : bg.usages - 1 ≤ 0
          · rw [completeCleanTask_of_lastRef hl hbag hlb hu]
            constructor
            · exact keysND_eraseK hInv.nodupFiles key
            · intro k fd' hlk hst
              rw [lookupK_eraseK] at hlk
              split at hlk
              · simp at hlk
              · exact hInv.newNoBag k fd' hlk hst
            · intro k fd' hlk hpr
              rw [lookupK_eraseK] at hlk
              split at hlk
              · simp at hlk
              · exact hInv.providerStored k fd' hlk hpr
            · intro h bg' hbg'
              rw [lookupK_eraseK] at hbg'
              split at hbg'
              · simp at hbg'
              · rename_i hh
                have hold := hInv.usagesEq h bg' hbg'
                have herase := refCount_erase_some hInv.nodupFiles hl h
                have hrf : bagRefs h fd = false := by
                  rw [bagRefs_of_some hbag]
                  simpa using hh
                rw [hrf] at herase
                dsimp only
                norm_num at herase
                omega
            · intro k fd' b' hlk hbb
              have hlk' := hlk
              rw [lookupK_eraseK] at hlk'
              split at hlk'
              · simp at hlk'
              · rename_i hk
                rw [lookupK_eraseK]
                split
                · rename_i hh
                  have hpos : 0 < refCount (eraseK key db.files) b.rootHash := by
                    refine countV_pos_of_lookupK hlk ?_
                    rw [bagRefs_of_some hbb]
                    simp [hh]
                  have herase := refCount_erase_some hInv.nodupFiles hl b.rootHash
                  rw [hrefsKey] at herase
                  norm_num at herase
                  omega
                · rename_i hh
                  exact hInv.refHasBag k fd' b' hlk' hbb
          · rw [completeCleanTask_of_moreRefs hl hbag hlb hu]
            constructor
            · exact keysND_eraseK hInv.nodupFiles key
            · intro k fd' hlk hst
              rw [lookupK_eraseK] at hlk
              split at hlk
              · simp at hlk
              · exact hInv.newNoBag k fd' hlk hst
            · intro k fd' hlk hpr
              rw [lookupK_eraseK] at hlk
              split at hlk
              · simp at hlk
              · exact hInv.providerStored k fd' hlk hpr
            · intro h bg' hbg'
              rw [lookupK_putK] at hbg'
              have herase := refCount_erase_some hInv.nodupFiles hl h
              split at hbg'
              · rename_i hh
                cases hbg'
                subst hh
                have hrf : bagRefs b.rootHash fd = true := by
                  rw [bagRefs_of_some hbag]
                  simp
                rw [hrf] at herase
                norm_num at herase
                show bg.usages - 1 = (refCount (eraseK key db.files) b.rootHash : Int)
                omega
              · rename_i hh
                have hold := hInv.usagesEq h bg' hbg'
                have hrf : bagRefs h fd = false := by
                  rw [bagRefs_of_some hbag]
                  simpa using hh
                rw [hrf] at herase
                norm_num at herase
                show bg'.usages = (refCount (eraseK key db.files) h : Int)
                omega
            · intro k fd' b' hlk hbb
              rw [lookupK_eraseK] at hlk
              split at hlk
              · simp at hlk
              · have := hInv.refHasBag k fd' b' hlk hbb
                rw [lookupK_putK]
                split
                · simp
                · exact this

theorem applyUpdateResult_bags {db : DB} (r : UpdateTaskResult) :
    (applyUpdateResult db r).bags = db.bags := by
  unfold applyUpdateResult
  repeat' split <;> try rfl

theorem applyUpdateResult_files (db : DB) (r : UpdateTaskResult) :
    (applyUpdateResult db r).files = db.files ∨
      ∃ pi fi, r.providerInfo = some pi ∧ lookupK r.key db.files = some fi ∧
        (applyUpdateResult db r).files =
          putK r.key { fi with state := FileStateStored, provider := some pi } db.files := by
  cases hpi : r.providerInfo with
  | none =>
    left
    simp only [applyUpdateResult, hpi]
    repeat' split <;> rfl
  | some pi =>
    cases hfi : lookupK r.key db.files with
    | none =>
      left
      simp only [applyUpdateResult, hpi, hfi]
      repeat' split <;> rfl
    | some fi =>
      right
      refine ⟨pi, fi, rfl, rfl, ?_⟩
      simp only [applyUpdateResult, hpi, hfi]
      repeat' split <;> rfl

theorem inv_applyUpdateResult {db : DB} (hInv : Inv db) (r : UpdateTaskResult) :
    Inv (applyUpdateResult db r) := by
  rcases applyUpdateResult_files db r with hf | ⟨pi, fi, hpi, hfi, hf⟩
  · exact inv_congr hInv hf (applyUpdateResult_bags r)
  · constructor
    · rw [hf]
      exact keysND_putK hInv.nodupFiles _ _
    · intro k fd' hlk hst
      rw [hf, lookupK_putK] at hlk
      split at hlk
      · cases hlk
        simp [FileStateStored, FileStateNew] at hst
      · exact hInv.newNoBag k fd' hlk hst
    · intro k fd' hlk hpr
      rw [hf, lookupK_putK] at hlk
      split at hlk
      · cases hlk
        rfl
      · exact hInv.providerStored k fd' hlk hpr
    · intro h bg' hbg'
      rw [applyUpdateResult_bags r] at hbg'
      have hold := hInv.usagesEq h bg' hbg'
      have hrc := refCount_put_some hInv.nodupFiles hfi
        { fi with state := FileStateStored, provider := some pi } h
      have hsame : bagRefs h { fi with state := FileStateStored, provider := some pi }
          = bagRefs h fi := rfl
      rw [hsame] at hrc
      rw [hf]
      omega
    · intro k fd' b hlk hbb
      rw [applyUpdateResult_bags r]
      rw [hf, lookupK_putK] at hlk
      split at hlk
      · cases hlk
        exact hInv.refHasBag r.key fi b hfi hbb
      · exact hInv.refHasBag k fd' b hlk hbb

theorem inv_completeUpdateTasks {db : DB} (hInv : Inv db) (rs : List UpdateTaskResult) :
    Inv (completeUpdateTasks db rs) := by
  induction rs generalizing db with
  | nil => exact hInv
  | cons r rest ih => exact ih (inv_applyUpdateResult hInv r)

theorem doUpdateTask_db (db : DB) (t : UpdateTask) (o : UpdOracle) (now : Int) :
    (doUpdateTask db t o now).1 = db ∨
      (doUpdateTask db t o now).1 = createCleanTaskByKey db t.key now := by
  unfold doUpdateTask
  dsimp only
  repeat' split
  all_goals dsimp only
  all_goals repeat' split
  all_goals first
    | exact Or.inl rfl
    | exact Or.inr rfl

theorem doUpdateTask_files {db : DB} (t : UpdateTask) (o : UpdOracle) (now : Int) :
    (doUpdateTask db t o now).1.files = db.files := by
  rcases doUpdateTask_db db t o now with h | h <;> rw [h] <;> rfl

theorem doUpdateTask_bags {db : DB} (t : UpdateTask) (o : UpdOracle) (now : Int) :
    (doUpdateTask db t o now).1.bags = db.bags := by
  rcases doUpdateTask_db db t o now with h | h <;> rw [h] <;> rfl

theorem inv_doUpdateTask {db : DB} (hInv : Inv db) (t : UpdateTask) (o : UpdOracle)
    (now : Int) : Inv (doUpdateTask db t o now).1 :=
  inv_congr hInv (doUpdateTask_files t o now) (doUpdateTask_bags t o now)

theorem inv_updCollect_foldl {now : Int} (tasks : List (UpdateTask × UpdOracle)) :
    ∀ acc : DB × List UpdateTaskResult, Inv acc.1 →
      Inv (tasks.foldl (updCollect now) acc).1 := by
  induction tasks with
  | nil => exact fun acc h => h
  | cons p rest ih =>
    intro acc hInv
    exact ih _ (inv_doUpdateTask hInv p.1 p.2 now)

theorem inv_doUpdatePass {db : DB} (hInv : Inv db) (tasks : List (UpdateTask × UpdOracle))
    (now : Int) : Inv (doUpdatePass db tasks now) := by
  unfold doUpdatePass
  exact inv_completeUpdateTasks (inv_updCollect_foldl tasks (db, []) hInv) _

theorem inv_doStoreTask {s : SState} (hInv : Inv s.db) (key : String)
    (oracle : Option (Bag × String)) (now : Int) : Inv (doStoreTask s key oracle now).db := by
  unfold doStoreTask
  cases hl : lookupK key s.db.files with
  | none => exact hInv
  | some fi =>
    cases oracle with
    | none => exact hInv
    | some ba =>
      cases hc : completeStoreTask s.db key ba.1 ba.2 freeStoreSec now with
      | error e =>
        simp only [hc]
        exact hInv
      | ok res =>
        obtain ⟨db', flag⟩ := res
        simp only [hc]
        exact inv_completeStoreTask hInv hc

theorem inv_doCleanupTask {db : DB} (hInv : Inv db) (t : CleanupTask) :
    Inv (doCleanupTask db t) :=
  inv_completeCleanTask hInv t.key _

theorem inv_storeCreate {db : DB} (hInv : Inv db) (u n : String) (now : Int) :
    Inv (dbOrElse (storeFileInfo db u (mkNewFileInfo u n now)) db) := by
  cases hc : storeFileInfo db u (mkNewFileInfo u n now) with
  | error e => exact hInv
  | ok db' =>
    have : Inv db' := inv_storeFileInfo hInv rfl rfl hc
    simpa [dbOrElse] using this

/-- Every step of the system preserves the store invariant. -/
theorem inv_stepApply {s : SState} (hInv : Inv s.db) (st : Step) :
    Inv (stepApply s st).db := by
  cases st with
  | create u n now => exact inv_storeCreate hInv u n now
  | storePass key o now => exact inv_doStoreTask hInv key o now
  | cleanPass t => exact inv_doCleanupTask hInv t
  | updatePass ts now => exact inv_doUpdatePass hInv ts now
  | removeReq u n now => exact inv_removeFileSvc hInv u n now
  | refresh u ks g now => exact inv_refreshUserIfNeeded hInv u ks g now

/-- The invariant holds in every reachable state. -/
theorem inv_runSteps (steps : List Step) : Inv (runSteps steps).db := by
  have main : ∀ (l : List Step) (s : SState), Inv s.db → Inv (l.foldl stepApply s).db := by
    intro l
    induction l with
    | nil => exact fun s h => h
    | cons st rest ih => exact fun s h => ih _ (inv_stepApply h st)
  exact main steps ⟨emptyDB, []⟩ inv_emptyDB

/-! ## Characterisation of the update-task closure -/

@[simp] theorem finishUpd_key (t : UpdateTask) (r : UpdateTaskResult) :
    (finishUpd t r).key = r.key := by
  unfold finishUpd
  split <;> rfl

@[simp] theorem finishUpd_providerInfo (t : UpdateTask) (r : UpdateTaskResult) :
    (finishUpd t r).providerInfo = r.providerInfo := by
  unfold finishUpd
  split <;> rfl

theorem doUpdateTask_key {db : DB} (t : UpdateTask) (o : UpdOracle) (now : Int) :
    (doUpdateTask db t o now).2.key = t.key := by
  unfold doUpdateTask
  dsimp only
  repeat' split
  all_goals simp

/-- A result carrying provider info is only produced for a record whose bag
is present. -/
theorem doUpdateTask_providerInfo {db : DB} {t : UpdateTask} {o : UpdOracle} {now : Int} :
    (doUpdateTask db t o now).2.providerInfo ≠ none →
    ∃ fi, lookupK t.key db.files = some fi ∧ fi.bag ≠ none := by
  unfold doUpdateTask
  cases hl : lookupK t.key db.files with
  | none => simp
  | some fi =>
    cases hbag : fi.bag with
    | none => simp [hbag]
    | some b =>
      intro hp
      exact ⟨fi, rfl, by simp [hbag]⟩

theorem doUpdateTask_of_noFile {db : DB} {t : UpdateTask} {o : UpdOracle} {now : Int}
    (hl : lookupK t.key db.files = none) :
    doUpdateTask db t o now = (db, finishUpd t ⟨t.key, t.execAt, none, none⟩) := by
  simp [doUpdateTask, hl]

theorem doUpdateTask_of_noBag {db : DB} {t : UpdateTask} {o : UpdOracle} {now : Int}
    {fi : FileInfo} (hl : lookupK t.key db.files = some fi) (hbag : fi.bag = none) :
    doUpdateTask db t o now = (db, finishUpd t ⟨t.key, t.execAt, some (now + 15), none⟩) := by
  simp [doUpdateTask, hl, hbag]

theorem doUpdateTask_of_success {db : DB} {t : UpdateTask} {o : UpdOracle} {now : Int}
    {fi : FileInfo} {b : Bag} {balance perDay : Int} {toProof : Nat} {left : String}
    {info : StorageInfo}
    (hl : lookupK t.key db.files = some fi) (hbag : fi.bag = some b)
    (hbr : o.bagRes = BagRes.found)
    (hc : o.contract = ContractRes.ok balance toProof perDay left)
    (hi : o.info = some info)
    (hg : graceExpiredCalc info (oldSinceOf fi) now = false) :
    doUpdateTask db t o now = (db, finishUpd t ⟨t.key, t.execAt, some (now + 300),
      some (newProviderInfo balance perDay left info
        (errorSinceCalc info (oldSinceOf fi) now) now)⟩) := by
  cases hc' : o.contract <;> rw [hc'] at hc <;> try cases hc
  simp [doUpdateTask, hl, hbag, hbr, hc', hi, hg]

theorem doUpdateTask_of_graceExpired {db : DB} {t : UpdateTask} {o : UpdOracle} {now : Int}
    {fi : FileInfo} {b : Bag} {balance perDay : Int} {toProof : Nat} {left : String}
    {info : StorageInfo}
    (hl : lookupK t.key db.files = some fi) (hbag : fi.bag = some b)
    (hbr : o.bagRes = BagRes.found)
    (hc : o.contract = ContractRes.ok balance toProof perDay left)
    (hi : o.info = some info)
    (hg : graceExpiredCalc info (oldSinceOf fi) now = true) :
    doUpdateTask db t o now = (createCleanTaskByKey db t.key now,
      finishUpd t ⟨t.key, t.execAt, none, fi.provider⟩) := by
  cases hc' : o.contract <;> rw [hc'] at hc <;> try cases hc
  simp [doUpdateTask, hl, hbag, hbr, hc', hi, hg]

/-! ## State monotonicity and the Bagged-before-Stored property -/

/-- Every stored record state is one of the three declared states. -/
def StatesOK (m : KMap FileInfo) : Prop :=
  ∀ k fd, lookupK k m = some fd → fd.state ≤ FileStateStored

/-- Records only move forward: every record of `m` persists in `m'` with a
state at least as large. -/
def FwdLe (m m' : KMap FileInfo) : Prop :=
  ∀ k fd, lookupK k m = some fd → ∃ fd', lookupK k m' = some fd' ∧ fd.state ≤ fd'.state

theorem fwdLe_refl (m : KMap FileInfo) : FwdLe m m :=
  fun k fd h => ⟨fd, h, le_refl _⟩

theorem fwdLe_trans {m1 m2 m3 : KMap FileInfo} (h12 : FwdLe m1 m2) (h23 : FwdLe m2 m3) :
    FwdLe m1 m3 := by
  intro k fd h
  rcases h12 k fd h with ⟨fd2, h2, le2⟩
  rcases h23 k fd2 h2 with ⟨fd3, h3, le3⟩
  exact ⟨fd3, h3, le2.trans le3⟩

/-- A result of the update pass that carries provider info belongs to a
record that was already at Bagged or Stored in the pass's base store. -/
def ResOK (files0 : KMap FileInfo) (r : UpdateTaskResult) : Prop :=
  r.providerInfo ≠ none → ∃ fi, lookupK r.key files0 = some fi ∧
    (fi.state = FileStateStored ∨ fi.state = FileStateBag)

/-- Shape of the files map after a repository create. -/
theorem create_files (db : DB) (u n : String) (now : Int) :
    (dbOrElse (storeFileInfo db u (mkNewFileInfo u n now)) db).files = db.files ∨
      (lookupK (u ++ ":" ++ n) db.files = none ∧
        (dbOrElse (storeFileInfo db u (mkNewFileInfo u n now)) db).files =
          putK (u ++ ":" ++ n) (mkNewFileInfo u n now) db.files) := by
  cases hl : lookupK (u ++ ":" ++ n) db.files with
  | some w =>
    left
    simp [storeFileInfo, mkNewFileInfo, dbOrElse, hl]
  | none =>
    right
    refine ⟨rfl, ?_⟩
    simp [storeFileInfo, mkNewFileInfo, dbOrElse, hl]

theorem doStoreTask_of_noFile {s : SState} {key : String} {oracle : Option (Bag × String)}
    {now : Int} (hl : lookupK key s.db.files = none) : doStoreTask s key oracle now = s := by
  simp [doStoreTask, hl]

theorem doStoreTask_of_noOracle {s : SState} {key : String} {now : Int} :
    doStoreTask s key none now = s := by
  cases hl : lookupK key s.db.files <;> simp [doStoreTask, hl]

theorem doStoreTask_of_err {s : SState} {key : String} {b : Bag} {addr : String}
    {now : Int} {fi : FileInfo} {e : String} (hl : lookupK key s.db.files = some fi)
    (hc : completeStoreTask s.db key b addr freeStoreSec now = .error e) :
    doStoreTask s key (some (b, addr)) now = s := by
  simp [doStoreTask, hl, hc]

theorem doStoreTask_of_ok {s : SState} {key : String} {b : Bag} {addr : String}
    {now : Int} {fi : FileInfo} {db' : DB} {flag : Bool}
    (hl : lookupK key s.db.files = some fi)
    (hc : completeStoreTask s.db key b addr freeStoreSec now = .ok (db', flag)) :
    doStoreTask s key (some (b, addr)) now =
      { db := db',
        disk := if flag then s.disk.filter (fun p => p ≠ fi.ownerAddr ++ "/" ++ fi.filePath)
                else s.disk } := by
  simp [doStoreTask, hl, hc]

/-- Shape of the files map after one store-pass iteration. -/
theorem doStoreTask_files (s : SState) (key : String) (oracle : Option (Bag × String))
    (now : Int) :
    (doStoreTask s key oracle now).db.files = s.db.files ∨
      ∃ fd0 fd1, lookupK key s.db.files = some fd0 ∧ fd0.state = FileStateNew ∧
        fd1.state = FileStateBag ∧
        (doStoreTask s key oracle now).db.files = putK key fd1 s.db.files := by
  cases hl : lookupK key s.db.files with
  | none =>
    left
    rw [doStoreTask_of_noFile hl]
  | some fi =>
    cases oracle with
    | none =>
      left
      rw [doStoreTask_of_noOracle]
    | some ba =>
      obtain ⟨b, addr⟩ := ba
      by_cases hs : fi.state = FileStateNew
      · cases hb : lookupK b.rootHash s.db.bags with
        | some bg =>
          right
          rw [doStoreTask_of_ok hl (completeStoreTask_of_repeat hl hs hb)]
          exact ⟨fi, _, rfl, hs, rfl, rfl⟩
        | none =>
          right
          rw [doStoreTask_of_ok hl (completeStoreTask_of_first hl hs hb)]
          exact ⟨fi, _, rfl, hs, rfl, rfl⟩
      · left
        rw [doStoreTask_of_ok hl (completeStoreTask_of_notNew hl hs)]

/-- Shape of the files map after `CompleteCleanTask`. -/
theorem completeCleanTask_files (db : DB) (key : String) (remove : Bool) :
    (completeCleanTask db key remove).1.files = db.files ∨
      (completeCleanTask db key remove).1.files = eraseK key db.files := by
  cases hl : lookupK key db.files with
  | none =>
    left
    rw [completeCleanTask_of_none hl]
  | some fd =>
    cases remove with
    | false =>
      left
      rw [completeCleanTask_of_keep hl]
    | true =>
      cases hbag : fd.bag with
      | none =>
        right
        rw [completeCleanTask_of_noBag hl hbag]
      | some b =>
        cases hlb : lookupK b.rootHash db.bags with
        | none =>
          right
          rw [completeCleanTask_of_bagAbsent hl hbag hlb]
        | some bg =>
          by_cases hu : bg.usages - 1 ≤ 0
          · right
            rw [completeCleanTask_of_lastRef hl hbag hlb hu]
          · right
            rw [completeCleanTask_of_moreRefs hl hbag hlb hu]

/-- Shape of the files map after `applyUpdateResult` (nothing is created or
deleted; a rewritten record is forced to Stored). -/
theorem applyUpdateResult_files_shape (db : DB) (r : UpdateTaskResult) :
    (applyUpdateResult db r).files = db.files ∨
      ∃ pi fi, r.providerInfo = some pi ∧ lookupK r.key db.files = some fi ∧
        (applyUpdateResult db r).files =
          putK r.key { fi with state := FileStateStored, provider := some pi } db.files :=
  applyUpdateResult_files db r

theorem statesOK_applyUpdateResult {db : DB} (hSO : StatesOK db.files)
    (r : UpdateTaskResult) : StatesOK (applyUpdateResult db r).files := by
  rcases applyUpdateResult_files db r with hf | ⟨pi, fi, hpi, hfi, hf⟩
  · rw [hf]
    exact hSO
  · intro k fd hlk
    rw [hf, lookupK_putK] at hlk
    split at hlk
    · cases hlk
      exact le_refl _
    · exact hSO k fd hlk

theorem fwdLe_applyUpdateResult {db : DB} (hSO : StatesOK db.files) (r : UpdateTaskResult) :
    FwdLe db.files (applyUpdateResult db r).files := by
  rcases applyUpdateResult_files db r with hf | ⟨pi, fi, hpi, hfi, hf⟩
  · rw [hf]
    exact fwdLe_refl _
  · intro k fd hlk
    rw [hf, lookupK_putK]
    split
    case isTrue hh =>
      subst hh
      refine ⟨_, rfl, ?_⟩
      have : fd = fi := by
        rw [hfi] at hlk
        cases hlk
        rfl
      subst this
      exact hSO r.key fd hlk
    case isFalse hh => exact ⟨fd, hlk, le_refl _⟩

theorem applyUpdateResult_back {db : DB} {r : UpdateTaskResult}
    (hr : ResOK db.files r) :
    ∀ k fd', lookupK k (applyUpdateResult db r).files = some fd' →
      (fd'.state = FileStateStored ∨ fd'.state = FileStateBag) →
      ∃ fd, lookupK k db.files = some fd ∧
        (fd.state = FileStateStored ∨ fd.state = FileStateBag) := by
  intro k fd' hlk hst
  rcases applyUpdateResult_files db r with hf | ⟨pi, fi, hpi, hfi, hf⟩
  · rw [hf] at hlk
    exact ⟨fd', hlk, hst⟩
  · rw [hf, lookupK_putK] at hlk
    split at hlk
    case isTrue hh =>
      subst hh
      exact hr (by simp [hpi])
    case isFalse hh => exact ⟨fd', hlk, hst⟩

theorem statesOK_completeUpdateTasks {db : DB} (hSO : StatesOK db.files)
    (rs : List UpdateTaskResult) : StatesOK (completeUpdateTasks db rs).files := by
  induction rs generalizing db with
  | nil => exact hSO
  | cons r rest ih => exact ih (statesOK_applyUpdateResult hSO r)

theorem fwdLe_completeUpdateTasks {db : DB} (hSO : StatesOK db.files)
    (rs : List UpdateTaskResult) : FwdLe db.files (completeUpdateTasks db rs).files := by
  induction rs generalizing db with
  | nil => exact fwdLe_refl _
  | cons r rest ih =>
    exact fwdLe_trans (fwdLe_applyUpdateResult hSO r) (ih (statesOK_applyUpdateResult hSO r))

theorem back_completeUpdateTasks {rs : List UpdateTaskResult} :
    ∀ db : DB, (∀ r ∈ rs, ResOK db.files r) →
      ∀ k fd', lookupK k (completeUpdateTasks db rs).files = some fd' →
        (fd'.state = FileStateStored ∨ fd'.state = FileStateBag) →
        ∃ fd, lookupK k db.files = some fd ∧
          (fd.state = FileStateStored ∨ fd.state = FileStateBag) := by
  induction rs with
  | nil => exact fun db _ k fd' hlk hst => ⟨fd', hlk, hst⟩
  | cons r rest ih =>
    intro db hres k fd' hlk hst
    have hresRest : ∀ r' ∈ rest, ResOK (applyUpdateResult db r).files r' := by
      intro r' hmem hpne
      rcases hres r' (List.mem_cons_of_mem _ hmem) hpne with ⟨fi, hfi, hstfi⟩
      rcases applyUpdateResult_files db r with hf | ⟨pi, fi2, hpi2, hfi2, hf⟩
      · exact ⟨fi, by rw [hf]; exact hfi, hstfi⟩
      · by_cases hk : r.key = r'.key
        · refine ⟨{ fi2 with state := FileStateStored, provider := some pi }, ?_, Or.inl rfl⟩
          rw [hf, ← hk, lookupK_put_self]
        · exact ⟨fi, by rw [hf, lookupK_put_ne (fun hh => hk hh.symm)]; exact hfi, hstfi⟩
    have hmid := ih (applyUpdateResult db r) hresRest k fd' hlk hst
    rcases hmid with ⟨fd1, hfd1, hst1⟩
    exact applyUpdateResult_back (hres r (List.mem_cons_self r rest)) k fd1 hfd1 hst1

theorem doCleanupTask_files (db : DB) (t : CleanupTask) :
    (doCleanupTask db t).files = db.files ∨
      (doCleanupTask db t).files = eraseK t.key db.files :=
  completeCleanTask_files db t.key _

theorem removeFileSvc_files (db : DB) (u n : String) (now : Int) :
    (removeFileSvc db u n now).1.files = db.files := by
  cases hl : lookupK (fileKey u n) db.files with
  | none => simp [removeFileSvc, hl]
  | some fd =>
    by_cases hs : FileStateStored ≤ fd.state <;>
      simp [removeFileSvc, hl, hs, createCleanTask, createCleanTaskByKey]

theorem refreshUserIfNeeded_files (db : DB) (u : String) (ks : List String)
    (gap now : Int) : (refreshUserIfNeeded db u ks gap now).files = db.files := by
  simp only [refreshUserIfNeeded]
  split <;> rfl

theorem updCollect_foldl_files (now : Int) (tasks : List (UpdateTask × UpdOracle)) :
    ∀ acc : DB × List UpdateTaskResult,
      ((tasks.foldl (updCollect now) acc).1).files = acc.1.files := by
  induction tasks with
  | nil => exact fun acc => rfl
  | cons p rest ih =>
    intro acc
    rw [List.foldl_cons, ih]
    exact doUpdateTask_files p.1 p.2 now

theorem collect_resOK {db0 : DB} (hInv : Inv db0) (hSO : StatesOK db0.files) (now : Int)
    (tasks : List (UpdateTask × UpdOracle)) :
    ∀ acc : DB × List UpdateTaskResult, acc.1.files = db0.files →
      (∀ r ∈ acc.2, ResOK db0.files r) →
      ∀ r ∈ (tasks.foldl (updCollect now) acc).2, ResOK db0.files r := by
  induction tasks with
  | nil => exact fun acc _ hacc => hacc
  | cons p rest ih =>
    intro acc hfiles hacc
    refine ih _ ?_ ?_
    · rw [show (updCollect now acc p).1 = (doUpdateTask acc.1 p.1 p.2 now).1 from rfl]
      rw [doUpdateTask_files, hfiles]
    · intro r hr
      rcases List.mem_append.mp hr with hr | hr
      · exact hacc r hr
      · have : r = (doUpdateTask acc.1 p.1 p.2 now).2 := by
          simpa using hr
        subst this
        intro hpne
        rcases doUpdateTask_providerInfo hpne with ⟨fi, hfi, hbag⟩
        rw [hfiles] at hfi
        rw [doUpdateTask_key] at *
        refine ⟨fi, hfi, ?_⟩
        have hne0 : fi.state ≠ FileStateNew := by
          intro h0
          exact hbag (hInv.newNoBag p.1.key fi hfi h0)
        have hle := hSO p.1.key fi hfi
        simp only [FileStateNew, FileStateStored, FileStateBag] at *
        omega

/-- The files map is only changed by the batch commit of the update pass. -/
theorem doUpdatePass_files_eq (db : DB) (tasks : List (UpdateTask × UpdOracle)) (now : Int) :
    (doUpdatePass db tasks now).files =
      (completeUpdateTasks (tasks.foldl (updCollect now) (db, [])).1
        (tasks.foldl (updCollect now) (db, [])).2).files := rfl

theorem statesOK_stepApply {s : SState} (hSO : StatesOK s.db.files) (st : Step) :
    StatesOK (stepApply s st).db.files := by
  cases st with
  | create u n now =>
    rcases create_files s.db u n now with hf | ⟨hnone, hf⟩
    · intro k fd hlk
      rw [show (stepApply s (Step.create u n now)).db.files
          = (dbOrElse (storeFileInfo s.db u (mkNewFileInfo u n now)) s.db).files from rfl,
        hf] at hlk
      exact hSO k fd hlk
    · intro k fd hlk
      rw [show (stepApply s (Step.create u n now)).db.files
          = (dbOrElse (storeFileInfo s.db u (mkNewFileInfo u n now)) s.db).files from rfl,
        hf, lookupK_putK] at hlk
      split at hlk
      · cases hlk
        show FileStateNew ≤ FileStateStored
        decide
      · exact hSO k fd hlk
  | storePass key o now =>
    rcases doStoreTask_files s key o now with hf | ⟨fd0, fd1, hl0, hs0, hs1, hf⟩
    · intro k fd hlk
      rw [show (stepApply s (Step.storePass key o now)).db.files
          = (doStoreTask s key o now).db.files from rfl, hf] at hlk
      exact hSO k fd hlk
    · intro k fd hlk
      rw [show (stepApply s (Step.storePass key o now)).db.files
          = (doStoreTask s key o now).db.files from rfl, hf, lookupK_putK] at hlk
      split at hlk
      · cases hlk
        rw [hs1]
        decide
      · exact hSO k fd hlk
  | cleanPass t =>
    rcases doCleanupTask_files s.db t with hf | hf <;> intro k fd hlk <;>
      rw [show (stepApply s (Step.cleanPass t)).db.files = (doCleanupTask s.db t).files
        from rfl, hf] at hlk
    · exact hSO k fd hlk
    · rw [lookupK_eraseK] at hlk
      split at hlk
      · simp at hlk
      · exact hSO k fd hlk
  | updatePass ts now =>
    intro k fd hlk
    rw [show (stepApply s (Step.updatePass ts now)).db.files = (doUpdatePass s.db ts now).files
      from rfl, doUpdatePass_files_eq] at hlk
    have hbase : ((ts.foldl (updCollect now) (s.db, [])).1).files = s.db.files :=
      updCollect_foldl_files now ts (s.db, [])
    have hSO' : StatesOK ((ts.foldl (updCollect now) (s.db, [])).1).files := by
      rw [hbase]
      exact hSO
    exact statesOK_completeUpdateTasks hSO' _ k fd hlk
  | removeReq u n now =>
    intro k fd hlk
    rw [show (stepApply s (Step.removeReq u n now)).db.files
        = (removeFileSvc s.db u n now).1.files from rfl, removeFileSvc_files] at hlk
    exact hSO k fd hlk
  | refresh u ks g now =>
    intro k fd hlk
    rw [show (stepApply s (Step.refresh u ks g now)).db.files
        = (refreshUserIfNeeded s.db u ks g now).files from rfl,
      refreshUserIfNeeded_files] at hlk
    exact hSO k fd hlk

theorem statesOK_runSteps (steps : List Step) : StatesOK (runSteps steps).db.files := by
  have main : ∀ (l : List Step) (s : SState), StatesOK s.db.files →
      StatesOK (l.foldl stepApply s).db.files := by
    intro l
    induction l with
    | nil => exact fun s h => h
    | cons st rest ih => exact fun s h => ih _ (statesOK_stepApply h st)
  refine main steps ⟨emptyDB, []⟩ ?_
  intro k fd hlk
  simp [emptyDB] at hlk

/-- Same-key records never move backwards across any single step. -/
theorem mono_stepApply {s : SState} (hSO : StatesOK s.db.files) (st : Step) :
    ∀ k fd fd', lookupK k s.db.files = some fd →
      lookupK k (stepApply s st).db.files = some fd' → fd.state ≤ fd'.state := by
  have unchanged : ∀ (m : KMap FileInfo) (k : String) (fd fd' : FileInfo),
      lookupK k m = some fd → lookupK k m = some fd' → fd.state ≤ fd'.state := by
    intro m k fd fd' h1 h2
    rw [h1] at h2
    cases h2
    exact le_refl _
  cases st with
  | create u n now =>
    intro k fd fd' hbef haft
    rcases create_files s.db u n now with hf | ⟨hnone, hf⟩
    · rw [show (stepApply s (Step.create u n now)).db.files
        = (dbOrElse (storeFileInfo s.db u (mkNewFileInfo u n now)) s.db).files from rfl,
        hf] at haft
      exact unchanged _ _ _ _ hbef haft
    · rw [show (stepApply s (Step.create u n now)).db.files
        = (dbOrElse (storeFileInfo s.db u (mkNewFileInfo u n now)) s.db).files from rfl,
        hf, lookupK_putK] at haft
      split at haft
      case isTrue hh =>
        subst hh
        rw [hnone] at hbef
        cases hbef
      case isFalse hh => exact unchanged _ _ _ _ hbef haft
  | storePass key o now =>
    intro k fd fd' hbef haft
    rcases doStoreTask_files s key o now with hf | ⟨fd0, fd1, hl0, hs0, hs1, hf⟩
    · rw [show (stepApply s (Step.storePass key o now)).db.files
        = (doStoreTask s key o now).db.files from rfl, hf] at haft
      exact unchanged _ _ _ _ hbef haft
    · rw [show (stepApply s (Step.storePass key o now)).db.files
        = (doStoreTask s key o now).db.files from rfl, hf, lookupK_putK] at haft
      split at haft
      case isTrue hh =>
        subst hh
        cases haft
        rw [hl0] at hbef
        cases hbef
        rw [hs0, hs1]
        decide
      case isFalse hh => exact unchanged _ _ _ _ hbef haft
  | cleanPass t =>
    intro k fd fd' hbef haft
    rcases doCleanupTask_files s.db t with hf | hf <;>
      rw [show (stepApply s (Step.cleanPass t)).db.files = (doCleanupTask s.db t).files
        from rfl, hf] at haft
    · exact unchanged _ _ _ _ hbef haft
    · rw [lookupK_eraseK] at haft
      split at haft
      · simp at haft
      · exact unchanged _ _ _ _ hbef haft
  | updatePass ts now =>
    intro k fd fd' hbef haft
    rw [show (stepApply s (Step.updatePass ts now)).db.files = (doUpdatePass s.db ts now).files
      from rfl, doUpdatePass_files_eq] at haft
    have hbase : ((ts.foldl (updCollect now) (s.db, [])).1).files = s.db.files :=
      updCollect_foldl_files now ts (s.db, [])
    have hSO' : StatesOK ((ts.foldl (updCollect now) (s.db, [])).1).files := by
      rw [hbase]
      exact hSO
    have hfwd := fwdLe_completeUpdateTasks hSO' (ts.foldl (updCollect now) (s.db, [])).2
    rw [hbase] at hfwd
    rcases hfwd k fd hbef with ⟨fd2, h2, hle⟩
    rw [h2] at haft
    cases haft
    exact hle
  | removeReq u n now =>
    intro k fd fd' hbef haft
    rw [show (stepApply s (Step.removeReq u n now)).db.files
      = (removeFileSvc s.db u n now).1.files from rfl, removeFileSvc_files] at haft
    exact unchanged _ _ _ _ hbef haft
  | refresh u ks g now =>
    intro k fd fd' hbef haft
    rw [show (stepApply s (Step.refresh u ks g now)).db.files
      = (refreshUserIfNeeded s.db u ks g now).files from rfl,
      refreshUserIfNeeded_files] at haft
    exact unchanged _ _ _ _ hbef haft

/-- A record seen Stored after a step was already Stored or Bagged before it. -/
theorem back21_stepApply {s : SState} (hInv : Inv s.db) (hSO : StatesOK s.db.files)
    (st : Step) :
    ∀ k fd', lookupK k (stepApply s st).db.files = some fd' →
      fd'.state = FileStateStored →
      ∃ fd, lookupK k s.db.files = some fd ∧
        (fd.state = FileStateStored ∨ fd.state = FileStateBag) := by
  cases st with
  | create u n now =>
    intro k fd' haft hst
    rcases create_files s.db u n now with hf | ⟨hnone, hf⟩
    · rw [show (stepApply s (Step.create u n now)).db.files
        = (dbOrElse (storeFileInfo s.db u (mkNewFileInfo u n now)) s.db).files from rfl,
        hf] at haft
      exact ⟨fd', haft, Or.inl hst⟩
    · rw [show (stepApply s (Step.create u n now)).db.files
        = (dbOrElse (storeFileInfo s.db u (mkNewFileInfo u n now)) s.db).files from rfl,
        hf, lookupK_putK] at haft
      split at haft
      case isTrue hh =>
        cases haft
        simp [mkNewFileInfo, FileStateNew, FileStateStored] at hst
      case isFalse hh => exact ⟨fd', haft, Or.inl hst⟩
  | storePass key o now =>
    intro k fd' haft hst
    rcases doStoreTask_files s key o now with hf | ⟨fd0, fd1, hl0, hs0, hs1, hf⟩
    · rw [show (stepApply s (Step.storePass key o now)).db.files
        = (doStoreTask s key o now).db.files from rfl, hf] at haft
      exact ⟨fd', haft, Or.inl hst⟩
    · rw [show (stepApply s (Step.storePass key o now)).db.files
        = (doStoreTask s key o now).db.files from rfl, hf, lookupK_putK] at haft
      split at haft
      case isTrue hh =>
        cases haft
        rw [hs1] at hst
        simp [FileStateBag, FileStateStored] at hst
      case isFalse hh => exact ⟨fd', haft, Or.inl hst⟩
  | cleanPass t =>
    intro k fd' haft hst
    rcases doCleanupTask_files s.db t with hf | hf <;>
      rw [show (stepApply s (Step.cleanPass t)).db.files = (doCleanupTask s.db t).files
        from rfl, hf] at haft
    · exact ⟨fd', haft, Or.inl hst⟩
    · rw [lookupK_eraseK] at haft
      split at haft
      · simp at haft
      · exact ⟨fd', haft, Or.inl hst⟩
  | updatePass ts now =>
    intro k fd' haft hst
    rw [show (stepApply s (Step.updatePass ts now)).db.files = (doUpdatePass s.db ts now).files
      from rfl, doUpdatePass_files_eq] at haft
    have hbase : ((ts.foldl (updCollect now) (s.db, [])).1).files = s.db.files :=
      updCollect_foldl_files now ts (s.db, [])
    have hres : ∀ r ∈ (ts.foldl (updCollect now) (s.db, [])).2,
        ResOK ((ts.foldl (updCollect now) (s.db, [])).1).files r := by
      intro r hr
      rw [hbase]
      exact collect_resOK hInv hSO now ts (s.db, []) rfl (by simp) r hr
    have := back_completeUpdateTasks (ts.foldl (updCollect now) (s.db, [])).1 hres
      k fd' haft (Or.inl hst)
    rw [hbase] at this
    exact this
  | removeReq u n now =>
    intro k fd' haft hst
    rw [show (stepApply s (Step.removeReq u n now)).db.files
      = (removeFileSvc s.db u n now).1.files from rfl, removeFileSvc_files] at haft
    exact ⟨fd', haft, Or.inl hst⟩
  | refresh u ks g now =>
    intro k fd' haft hst
    rw [show (stepApply s (Step.refresh u ks g now)).db.files
      = (refreshUserIfNeeded s.db u ks g now).files from rfl,
      refreshUserIfNeeded_files] at haft
    exact ⟨fd', haft, Or.inl hst⟩

/-- A record observed Stored was Bagged at some strictly earlier point of the
run (never Stored straight from New). -/
theorem stored_was_bagged (steps : List Step) :
    ∀ k fd, lookupK k (runSteps steps).db.files = some fd →
      fd.state = FileStateStored →
      ∃ i, i ≤ steps.length ∧ ∃ fdB,
        lookupK k (runSteps (steps.take i)).db.files = some fdB ∧
        fdB.state = FileStateBag := by
  induction steps using List.reverseRecOn with
  | nil =>
    intro k fd hlk
    simp [runSteps, emptyDB] at hlk
  | append_singleton steps st ih =>
    intro k fd hlk hst
    have hrun : runSteps (steps ++ [st]) = stepApply (runSteps steps) st := by
      simp [runSteps, List.foldl_append]
    rw [hrun] at hlk
    rcases back21_stepApply (inv_runSteps steps) (statesOK_runSteps steps) st k fd hlk hst
      with ⟨fd0, hfd0, hst0 | hst0⟩
    · rcases ih k fd0 hfd0 hst0 with ⟨i, hile, fdB, hB, hBst⟩
      refine ⟨i, by simpa using Nat.le_succ_of_le hile, fdB, ?_, hBst⟩
      rwa [List.take_append_of_le_length hile]
    · refine ⟨steps.length, by simp, fd0, ?_, hst0⟩
      rwa [List.take_left]

/-! ## Demonstration data for witnesses -/

/-- A concrete bag used by the witnesses. -/
def demoBag : Bag := ⟨"68", "6d", 500, 8, 5⟩

/-- Upload and package `a`, then upload byte-identical `b` (dedup). -/
def demoSteps : List Step :=
  [Step.create "u" "a" 0, Step.storePass "u:a" (some (demoBag, "ct")) 6,
   Step.create "u" "b" 1, Step.storePass "u:b" (some (demoBag, "ct")) 7]

/-- The record of `a` right after packaging (first occurrence of the bag). -/
def demoBaggedRec : FileInfo :=
  { state := FileStateBag, key := "", ownerAddr := "u", bag := some demoBag,
    filePath := "a", createdAt := 0, provider := none, contractAddr := "ct" }

/-! ## Claims -/

/-- C2: for every bag content hash `h` present in the store, after any
sequence of repository operations and worker passes (store-pass and
cleanup-pass completions included), the `usageCount` of the Bag Reference
Record for `h` equals the number of File Records whose bag root hash is `h`.
The store-pass completion creates the record at 1 on first occurrence /
increments it on a repeat, a removing cleanup decrements it and deletes it
at zero; this theorem states the resulting reference-counting invariant
over every reachable store. -/
theorem claim_C2_usage_count_invariant :
    ∀ (steps : List Step) (h : String) (bg : BagInfo),
      lookupK h (runSteps steps).db.bags = some bg →
      bg.usages = (refCount (runSteps steps).db.files h : Int) :=
  fun steps h bg hbg => (inv_runSteps steps).usagesEq h bg hbg

theorem claim_C2_usage_count_invariant_witness :
    lookupK "68" (runSteps demoSteps).db.bags = some ⟨2, "a"⟩ ∧
    (2 : Int) = (refCount (runSteps demoSteps).db.files "68" : Int) :=
  ⟨by decide, claim_C2_usage_count_invariant demoSteps "68" ⟨2, "a"⟩ (by decide)⟩

/-- C3: the state of a File Record only moves forward along
New → Bagged → Stored under any sequence of repository operations and
orchestrator passes (a cleanup may delete the record, after which the slot
can be re-created at New — deletion means there is no record, so the
monotonicity statement is about a record present both before and after a
step); a record is never observed Stored without having been Bagged at an
earlier point of the run; and `CompleteStoreTask` changes a record only when
its state is New. -/
theorem claim_C3_state_monotone :
    (∀ (steps : List Step) (st : Step) (k : String) (fd fd' : FileInfo),
        lookupK k (runSteps steps).db.files = some fd →
        lookupK k (stepApply (runSteps steps) st).db.files = some fd' →
        fd.state ≤ fd'.state)
    ∧ (∀ (steps : List Step) (k : String) (fd : FileInfo),
        lookupK k (runSteps steps).db.files = some fd →
        fd.state = FileStateStored →
        ∃ i, i ≤ steps.length ∧ ∃ fdB,
          lookupK k (runSteps (steps.take i)).db.files = some fdB ∧
          fdB.state = FileStateBag)
    ∧ (∀ (db : DB) (key : String) (bag : Bag) (addr : String) (ca now : Int)
        (fd : FileInfo) (res : DB × Bool),
        lookupK key db.files = some fd → fd.state ≠ FileStateNew →
        completeStoreTask db key bag addr ca now = .ok res → res.1.files = db.files) :=
  ⟨fun steps st k fd fd' h1 h2 => mono_stepApply (statesOK_runSteps steps) st k fd fd' h1 h2,
   fun steps => stored_was_bagged steps,
   fun db key bag addr ca now fd res h1 h2 h3 => by
     rw [completeStoreTask_of_notNew h1 h2] at h3
     cases h3
     rfl⟩

theorem claim_C3_state_monotone_witness :
    lookupK "u:a" (runSteps [Step.create "u" "a" 0]).db.files
      = some (mkNewFileInfo "u" "a" 0) ∧
    lookupK "u:a" (stepApply (runSteps [Step.create "u" "a" 0])
      (Step.storePass "u:a" (some (demoBag, "ct")) 6)).db.files = some demoBaggedRec ∧
    (mkNewFileInfo "u" "a" 0).state ≤ demoBaggedRec.state :=
  ⟨by decide, by decide,
    claim_C3_state_monotone.1 [Step.create "u" "a" 0]
      (Step.storePass "u:a" (some (demoBag, "ct")) 6) "u:a"
      (mkNewFileInfo "u" "a" 0) demoBaggedRec (by decide) (by decide)⟩

theorem doCleanupTask_of_some {db : DB} {t : CleanupTask} {fd : FileInfo}
    (hl : lookupK t.key db.files = some fd) :
    doCleanupTask db t =
      (completeCleanTask db t.key (t.force || decide (fd.state ≤ FileStateBag))).1 := by
  simp [doCleanupTask, hl]

theorem doCleanupTask_none_file {db : DB} {t : CleanupTask}
    (hl : lookupK t.key db.files = none) :
    doCleanupTask db t = (completeCleanTask db t.key (t.force || false)).1 := by
  simp [doCleanupTask, hl]

theorem completeCleanTask_cleanTasks (db : DB) (key : String) (remove : Bool) :
    (completeCleanTask db key remove).1.cleanTasks = eraseK key db.cleanTasks := by
  cases hl : lookupK key db.files with
  | none => rw [completeCleanTask_of_none hl]
  | some fd =>
    cases remove with
    | false => rw [completeCleanTask_of_keep hl]
    | true =>
      cases hbag : fd.bag with
      | none => rw [completeCleanTask_of_noBag hl hbag]
      | some b =>
        cases hlb : lookupK b.rootHash db.bags with
        | none => rw [completeCleanTask_of_bagAbsent hl hbag hlb]
        | some bg =>
          by_cases hu : bg.usages - 1 ≤ 0
          · rw [completeCleanTask_of_lastRef hl hbag hlb hu]
          · rw [completeCleanTask_of_moreRefs hl hbag hlb hu]

theorem completeCleanTask_files_of_remove {db : DB} {key : String} {fd : FileInfo}
    (hl : lookupK key db.files = some fd) :
    (completeCleanTask db key true).1.files = eraseK key db.files := by
  cases hbag : fd.bag with
  | none => rw [completeCleanTask_of_noBag hl hbag]
  | some b =>
    cases hlb : lookupK b.rootHash db.bags with
    | none => rw [completeCleanTask_of_bagAbsent hl hbag hlb]
    | some bg =>
      by_cases hu : bg.usages - 1 ≤ 0
      · rw [completeCleanTask_of_lastRef hl hbag hlb hu]
      · rw [completeCleanTask_of_moreRefs hl hbag hlb hu]

/-- C4: one cleanup-pass iteration on a due Cleanup Task removes the File
Record exactly when the task is forced or the record's state is below
Stored; when it removes a record whose bag has a Bag Reference Record, that
record is decremented (deleted once the count reaches zero) in the same
batch; and the Cleanup Task entry is deleted in every case, including when
the File Record no longer exists. -/
theorem claim_C4_cleanup_semantics :
    ∀ (db : DB) (t : CleanupTask) (fd : FileInfo),
      (lookupK t.key db.files = some fd →
        (lookupK t.key (doCleanupTask db t).files = none ↔
          (t.force = true ∨ fd.state < FileStateStored)))
      ∧ lookupK t.key (doCleanupTask db t).cleanTasks = none
      ∧ (∀ b bg, lookupK t.key db.files = some fd →
          (t.force = true ∨ fd.state < FileStateStored) → fd.bag = some b →
          lookupK b.rootHash db.bags = some bg →
          (if bg.usages - 1 ≤ 0 then lookupK b.rootHash (doCleanupTask db t).bags = none
           else lookupK b.rootHash (doCleanupTask db t).bags
             = some { bg with usages := bg.usages - 1 })) := by
  intro db t fd
  refine ⟨?_, ?_, ?_⟩
  · intro hl
    rw [doCleanupTask_of_some hl]
    cases hrm : (t.force || decide (fd.state ≤ FileStateBag)) with
    | true =>
      rw [completeCleanTask_files_of_remove hl]
      simp only [lookupK_eraseK, if_pos rfl]
      constructor
      · intro _
        rcases Bool.or_eq_true_iff.mp hrm with hf | hd
        · exact Or.inl hf
        · right
          have := of_decide_eq_true hd
          simp only [FileStateBag, FileStateStored] at *
          omega
      · intro _
        rfl
    | false =>
      rw [completeCleanTask_of_keep hl]
      simp only [hl]
      constructor
      · intro h
        cases h
      · intro h
        exfalso
        rcases h with hf | hd
        · simp [hf] at hrm
        · have : fd.state ≤ FileStateBag := by
            simp only [FileStateBag, FileStateStored] at *
            omega
          simp [this] at hrm
  · cases hl : lookupK t.key db.files with
    | none =>
      rw [doCleanupTask_none_file hl, completeCleanTask_cleanTasks]
      simp
    | some fd' =>
      rw [doCleanupTask_of_some hl, completeCleanTask_cleanTasks]
      simp
  · intro b bg hl hrm hbag hlb
    have hrmTrue : (t.force || decide (fd.state ≤ FileStateBag)) = true := by
      rcases hrm with hf | hd
      · simp [hf]
      · have : fd.state ≤ FileStateBag := by
          simp only [FileStateBag, FileStateStored] at *
          omega
        simp [this]
    rw [doCleanupTask_of_some hl, hrmTrue]
    by_cases hu : bg.usages - 1 ≤ 0
    · rw [completeCleanTask_of_lastRef hl hbag hlb hu, if_pos hu]
      simp
    · rw [completeCleanTask_of_moreRefs hl hbag hlb hu, if_neg hu]
      simp

theorem claim_C4_cleanup_semantics_witness :
    lookupK "u:a" (runSteps demoSteps).db.files = some demoBaggedRec ∧
    (lookupK "u:a" (doCleanupTask (runSteps demoSteps).db ⟨"u:a", 3, false⟩).files = none ↔
      ((false : Bool) = true ∨ demoBaggedRec.state < FileStateStored)) :=
  ⟨by decide,
    (claim_C4_cleanup_semantics (runSteps demoSteps).db ⟨"u:a", 3, false⟩
      demoBaggedRec).1 (by decide)⟩

/-- C5: `StoreFileInfo` (createRecord) fails with an already-exists error
and leaves the store unchanged when a record for the same (owner, file
path) key exists; otherwise it writes the New-state File Record and its
Store Task marker in one atomic batch (both keys in the single returned
store, nothing else changed). -/
theorem claim_C5_createRecord :
    ∀ (db : DB) (user cleanName : String) (now : Int),
      (lookupK (fileKey user cleanName) db.files ≠ none →
        storeFileInfo db user (mkNewFileInfo user cleanName now) =
          .error ("file data already exists for user " ++ user ++ " with filePath "
            ++ cleanName ++ ", remove it first before upload new"))
      ∧ (lookupK (fileKey user cleanName) db.files = none →
        storeFileInfo db user (mkNewFileInfo user cleanName now) = .ok
          { db with
            files := putK (fileKey user cleanName) (mkNewFileInfo user cleanName now) db.files,
            storeTasks := putK (fileKey user cleanName) () db.storeTasks }
        ∧ (mkNewFileInfo user cleanName now).state = FileStateNew) := by
  intro db user cleanName now
  constructor
  · intro hne
    cases hl : lookupK (fileKey user cleanName) db.files with
    | none => exact absurd hl hne
    | some w =>
      rw [fileKey] at hl
      simp [storeFileInfo, mkNewFileInfo, hl]
  · intro hl
    rw [fileKey] at hl
    refine ⟨?_, rfl⟩
    simp [storeFileInfo, mkNewFileInfo, hl, fileKey]

theorem claim_C5_createRecord_witness :
    lookupK (fileKey "u" "a") (runSteps demoSteps).db.files ≠ none ∧
    storeFileInfo (runSteps demoSteps).db "u" (mkNewFileInfo "u" "a" 9) =
      .error ("file data already exists for user " ++ "u" ++ " with filePath "
        ++ "a" ++ ", remove it first before upload new") :=
  ⟨by decide, (claim_C5_createRecord (runSteps demoSteps).db "u" "a" 9).1 (by decide)⟩

/-- C6: `RemoveFile` (requestDeletion) fails with a conflict error and
mutates nothing when the existing record's state is Stored or above;
otherwise, for an existing record below Stored, it enqueues a Cleanup Task
with `force = true` executable now and returns success. -/
theorem claim_C6_requestDeletion :
    ∀ (db : DB) (user name : String) (now : Int) (fd : FileInfo),
      lookupK (fileKey user name) db.files = some fd →
      (FileStateStored ≤ fd.state →
        removeFileSvc db user name now = (db, some "file is paid and stored at provider"))
      ∧ (fd.state < FileStateStored →
        removeFileSvc db user name now = (createCleanTask db user name now, none)
        ∧ lookupK (fileKey user name) (removeFileSvc db user name now).1.cleanTasks
            = some ⟨fileKey user name, now, true⟩) := by
  intro db user name now fd hl
  constructor
  · intro hs
    simp [removeFileSvc, hl, hs]
  · intro hs
    have hns : ¬FileStateStored ≤ fd.state := by omega
    refine ⟨by simp [removeFileSvc, hl, hns], ?_⟩
    simp [removeFileSvc, hl, hns, createCleanTask, createCleanTaskByKey]

theorem claim_C6_requestDeletion_witness :
    lookupK (fileKey "u" "a") (runSteps demoSteps).db.files = some demoBaggedRec ∧
    demoBaggedRec.state < FileStateStored ∧
    removeFileSvc (runSteps demoSteps).db "u" "a" 11 =
      (createCleanTask (runSteps demoSteps).db "u" "a" 11, none) :=
  ⟨by decide, by decide,
    (((claim_C6_requestDeletion (runSteps demoSteps).db "u" "a" 11 demoBaggedRec
      (by decide)).2) (by decide)).1⟩

/-- C7: when the store-pass completion finds an existing Bag Reference
Record for the produced content hash, it increments `usageCount`, rewrites
the completing record's file path to the canonical path of that reference
record, commits these changes in the batch and signals the physical
duplicate for removal through the returned flag — `doStore` deletes the
on-disk duplicate only against the already-committed store; on first
occurrence it creates the reference record with `usageCount = 1`, keeps the
original path, and no disk removal happens. -/
theorem claim_C7_dedup :
    ∀ (s : SState) (key : String) (bag : Bag) (addr : String) (now : Int) (fd : FileInfo),
      lookupK key s.db.files = some fd → fd.state = FileStateNew →
      (∀ bg, lookupK bag.rootHash s.db.bags = some bg →
        ∃ db', completeStoreTask s.db key bag addr freeStoreSec now = .ok (db', true)
          ∧ lookupK bag.rootHash db'.bags = some { bg with usages := bg.usages + 1 }
          ∧ lookupK key db'.files = some { fd with state := FileStateBag, bag := some bag, contractAddr := addr, filePath := bg.filePath }
          ∧ (doStoreTask s key (some (bag, addr)) now).db = db'
          ∧ (doStoreTask s key (some (bag, addr)) now).disk
              = s.disk.filter (fun p => p ≠ fd.ownerAddr ++ "/" ++ fd.filePath))
      ∧ (lookupK bag.rootHash s.db.bags = none →
        ∃ db', completeStoreTask s.db key bag addr freeStoreSec now = .ok (db', false)
          ∧ lookupK bag.rootHash db'.bags = some ⟨1, fd.filePath⟩
          ∧ lookupK key db'.files = some { fd with state := FileStateBag, bag := some bag, contractAddr := addr }
          ∧ (doStoreTask s key (some (bag, addr)) now).db = db'
          ∧ (doStoreTask s key (some (bag, addr)) now).disk = s.disk) := by
  intro s key bag addr now fd hl hs
  constructor
  · intro bg hb
    refine ⟨_, completeStoreTask_of_repeat hl hs hb, by simp, by simp, ?_, ?_⟩
    · rw [doStoreTask_of_ok hl (completeStoreTask_of_repeat hl hs hb)]
    · rw [doStoreTask_of_ok hl (completeStoreTask_of_repeat hl hs hb)]
      simp
  · intro hb
    refine ⟨_, completeStoreTask_of_first hl hs hb, by simp, by simp, ?_, ?_⟩
    · rw [doStoreTask_of_ok hl (completeStoreTask_of_first hl hs hb)]
    · rw [doStoreTask_of_ok hl (completeStoreTask_of_first hl hs hb)]
      simp

/-- The first three demo steps: `a` uploaded and packaged, `b` uploaded. -/
def demoSteps3 : List Step :=
  [Step.create "u" "a" 0, Step.storePass "u:a" (some (demoBag, "ct")) 6,
   Step.create "u" "b" 1]

theorem claim_C7_dedup_witness :
    lookupK "u:b" (runSteps demoSteps3).db.files = some (mkNewFileInfo "u" "b" 1) ∧
    lookupK "68" (runSteps demoSteps3).db.bags = some ⟨1, "a"⟩ ∧
    lookupK "68" (doStoreTask (runSteps demoSteps3) "u:b" (some (demoBag, "ct")) 7).db.bags
      = some ⟨2, "a"⟩ := by
  refine ⟨by decide, by decide, ?_⟩
  obtain ⟨db', h1, h2, h3, h4, h5⟩ :=
    (claim_C7_dedup (runSteps demoSteps3) "u:b" demoBag "ct" 7 (mkNewFileInfo "u" "b" 1)
      (by decide) (by decide)).1 ⟨1, "a"⟩ (by decide)
  rw [h4]
  have h2' : lookupK "68" db'.bags = some ⟨2, "a"⟩ := by
    simpa [demoBag] using h2
  exact h2'

/-! ## C8: the remaining-time calculation -/

theorem space_mem_fmt (a b : String) : ' ' ∈ (a ++ " Days " ++ b ++ " Hours").data := by
  have h : (a ++ " Days " ++ b ++ " Hours").data
      = ((a.data ++ (" Days ").data) ++ b.data) ++ (" Hours").data := rfl
  rw [h]
  refine List.mem_append.mpr (Or.inl ?_)
  refine List.mem_append.mpr (Or.inl ?_)
  refine List.mem_append.mpr (Or.inr ?_)
  decide

theorem fmtDaysHours_ne_expired (t : Int) : fmtDaysHours t ≠ "Expired" := by
  intro h
  have hmem := space_mem_fmt (toString (Int.tdiv t 86400))
    (toString (Int.tdiv (Int.tmod t 86400) 3600))
  rw [show fmtDaysHours t = toString (Int.tdiv t 86400) ++ " Days "
    ++ toString (Int.tdiv (Int.tmod t 86400) 3600) ++ " Hours" from rfl] at h
  rw [h] at hmem
  revert hmem
  decide

theorem daysLeft_of_price_ne_zero {balance ratePerMBDay : Int} {szMB : ℚ}
    {maxSpan elapsedSec : Nat} (hp : pricePerSpanInt ratePerMBDay szMB maxSpan ≠ 0) :
    daysLeft balance ratePerMBDay szMB maxSpan elapsedSec = fmtDaysHours
      ((if elapsedSec % 2 ^ 32 < maxSpan
         then (maxSpan : Int) - ((elapsedSec % 2 ^ 32 : Nat) : Int) else 0)
        + wrap64 (Int.ediv balance (pricePerSpanInt ratePerMBDay szMB maxSpan))
          * (maxSpan : Int)) := by
  simp only [daysLeft, hp, if_false, ite_false]

/-- C8: when the computed price per proving span is positive, the balance
covers zero further spans, and the time elapsed since the last proof is
within the current span, `daysLeft` reports exactly the remaining seconds of
the current span rendered as days and hours — not "Expired"; and "Expired"
is returned precisely when the computed price per span is zero. -/
theorem claim_C8_daysLeft :
    ∀ (balance ratePerMBDay : Int) (szMB : ℚ) (maxSpan elapsedSec : Nat),
      (0 < pricePerSpanInt ratePerMBDay szMB maxSpan →
        0 ≤ balance → balance < pricePerSpanInt ratePerMBDay szMB maxSpan →
        elapsedSec < maxSpan → maxSpan < 2 ^ 32 →
        daysLeft balance ratePerMBDay szMB maxSpan elapsedSec
            = fmtDaysHours ((maxSpan : Int) - (elapsedSec : Int))
          ∧ daysLeft balance ratePerMBDay szMB maxSpan elapsedSec ≠ "Expired")
      ∧ (daysLeft balance ratePerMBDay szMB maxSpan elapsedSec = "Expired" ↔
          pricePerSpanInt ratePerMBDay szMB maxSpan = 0) := by
  intro balance ratePerMBDay szMB maxSpan elapsedSec
  constructor
  · intro hp hb0 hblt helaps h32
    have hne : pricePerSpanInt ratePerMBDay szMB maxSpan ≠ 0 := by omega
    have hdiv : Int.ediv balance (pricePerSpanInt ratePerMBDay szMB maxSpan) = 0 :=
      Int.ediv_eq_zero_of_lt hb0 hblt
    have hmod : elapsedSec % 2 ^ 32 = elapsedSec := Nat.mod_eq_of_lt (helaps.trans h32)
    have heq : daysLeft balance ratePerMBDay szMB maxSpan elapsedSec
        = fmtDaysHours ((maxSpan : Int) - (elapsedSec : Int)) := by
      rw [daysLeft_of_price_ne_zero hne, hdiv, hmod, if_pos helaps]
      norm_num [wrap64]
    exact ⟨heq, heq ▸ fmtDaysHours_ne_expired _⟩
  · constructor
    · intro h
      by_contra hne
      rw [daysLeft_of_price_ne_zero hne] at h
      exact fmtDaysHours_ne_expired _ h
    · intro h
      simp [daysLeft, h]

theorem claim_C8_daysLeft_witness :
    0 < pricePerSpanInt 10 1 86400 ∧ (0 : Int) ≤ 5 ∧ (5 : Int) < pricePerSpanInt 10 1 86400 ∧
    3600 < 86400 ∧ 86400 < 2 ^ 32 ∧
    daysLeft 5 10 1 86400 3600 = fmtDaysHours ((86400 : Int) - (3600 : Int)) ∧
    daysLeft 5 10 1 86400 3600 ≠ "Expired" ∧
    daysLeft 5 10 1 86400 3600 = "0 Days 23 Hours" := by
  have hps : pricePerSpanInt 10 1 86400 = 10 := by norm_num [pricePerSpanInt, truncQ]
  have h := (claim_C8_daysLeft 5 10 1 86400 3600).1 (by rw [hps]; decide) (by decide)
    (by rw [hps]; decide) (by decide) (by decide)
  refine ⟨by rw [hps]; decide, by decide, by rw [hps]; decide, by decide, by decide,
    h.1, h.2, ?_⟩
  rw [h.1]
  decide

/-! ## C1: provider-error handling in the update pass -/

theorem graceExpired_internal {info : StorageInfo} (h : info.reason = "internal provider error")
    (os : Option Int) (now : Int) : graceExpiredCalc info os now = false := by
  simp [graceExpiredCalc, h]

theorem errorSince_internal {info : StorageInfo} (h : info.reason = "internal provider error")
    (os : Option Int) (now : Int) : errorSinceCalc info os now = none := by
  simp [errorSinceCalc, h]

theorem finishUpd_of_ne {t : UpdateTask} (h : t.execAt ≠ 0) (r : UpdateTaskResult) :
    finishUpd t r = r := by
  simp [finishUpd, h]

theorem doCleanupTask_force_removes (db : DB) (t : CleanupTask) (hf : t.force = true) :
    lookupK t.key (doCleanupTask db t).files = none := by
  cases hl : lookupK t.key db.files with
  | none =>
    rcases doCleanupTask_files db t with h | h <;> rw [h]
    · exact hl
    · simp
  | some fd =>
    rw [doCleanupTask_of_some hl, hf]
    rw [show (true || decide (fd.state ≤ FileStateBag)) = true from by simp]
    rw [completeCleanTask_files_of_remove hl]
    simp

/-- Concrete state refuting C1 as stated: a Stored file whose provider error
with reason "internal provider error" has persisted since time 0, observed
at time 5000 — far beyond the 900-second grace period. -/
def cexBag : Bag := ⟨"aa", "bb", 100, 4, 0⟩

/-- The stored provider snapshot with `errorSince` = 0. -/
def cexPI : ProviderInfo :=
  ⟨"1", "2", "error", "internal provider error", "", 100, some 0⟩

/-- The Stored file record. -/
def cexFile : FileInfo :=
  ⟨FileStateStored, "", "u", some cexBag, "f", 0, some cexPI, "ct"⟩

/-- The store holding it. -/
def cexDB : DB := ⟨[("u:f", cexFile)], [("aa", ⟨1, "f"⟩)], [], [], [("100:u:f", ())], []⟩

/-- The due update task and the oracle reporting the persistent error. -/
def cexTask : UpdateTask := ⟨"u:f", 100⟩

/-- Oracle: bag present, contract readable, provider reports
`status = "error", reason = "internal provider error"`. -/
def cexOracle : UpdOracle :=
  ⟨BagRes.found, ContractRes.ok 0 0 0 "", some ⟨"error", "internal provider error"⟩⟩

/-- C1 counterexample: the error has persisted for 5000 s, far longer than
the 900 s grace period, yet the update pass neither creates a Cleanup Task
nor removes the File Record — it resets `errorSince` to unset and
reschedules at the long (5-minute) interval.  This refutes the claimed
"after the grace period the pass converts it into a forced Cleanup Task and
the File Record is removed" for reason "internal provider error". -/
theorem claim_C1_counterexample :
    freeStoreSec < 5000 - 0
    ∧ (doUpdatePass cexDB [(cexTask, cexOracle)] 5000).cleanTasks = []
    ∧ lookupK "u:f" (doUpdatePass cexDB [(cexTask, cexOracle)] 5000).files
        = some ⟨FileStateStored, "", "u", some cexBag, "f", 0,
            some ⟨"0", "0", "error", "internal provider error", "", 5000, none⟩, "ct"⟩
    ∧ (doUpdateTask cexDB cexTask cexOracle 5000).2.nextExecAt = some 5300
    ∧ (doUpdateTask cexDB cexTask cexOracle 5000).2.providerInfo
        = some ⟨"0", "0", "error", "internal provider error", "", 5000, none⟩ :=
  ⟨by decide, by decide, by decide, by decide, by decide⟩

/-- C1 (amended): when the update pass observes provider status "error"
with reason "internal provider error", then regardless of how long the
error has persisted no cleanup occurs, `errorSince` stays unset, and the
task is rescheduled at the long (5-minute) interval; an error is converted
into a forced Cleanup Task (whose cleanup-pass execution removes the File
Record) once it has persisted beyond the grace period only for reasons
other than "internal provider error". -/
theorem claim_C1_amended :
    ∀ (db : DB) (t : UpdateTask) (o : UpdOracle) (now : Int) (fi : FileInfo) (b : Bag)
      (balance perDay : Int) (toProof : Nat) (left : String) (info : StorageInfo),
      lookupK t.key db.files = some fi → fi.bag = some b →
      o.bagRes = BagRes.found → o.contract = ContractRes.ok balance toProof perDay left →
      o.info = some info → info.status = "error" → t.execAt ≠ 0 →
      ((info.reason = "internal provider error" →
        doUpdateTask db t o now = (db, ⟨t.key, t.execAt, some (now + 300),
          some (newProviderInfo balance perDay left info none now)⟩))
      ∧ (info.reason ≠ "internal provider error" →
          ∀ tE, oldSinceOf fi = some tE → freeStoreSec < now - tE →
          doUpdateTask db t o now = (createCleanTaskByKey db t.key now,
            ⟨t.key, t.execAt, none, fi.provider⟩)
          ∧ lookupK t.key (createCleanTaskByKey db t.key now).cleanTasks
              = some ⟨t.key, now, true⟩
          ∧ ∀ db2 : DB, lookupK t.key (doCleanupTask db2 ⟨t.key, now, true⟩).files = none)) := by
  intro db t o now fi b balance perDay toProof left info hl hbag hbr hc hi hstat hexec
  constructor
  · intro hreason
    rw [doUpdateTask_of_success hl hbag hbr hc hi (graceExpired_internal hreason _ now),
      finishUpd_of_ne hexec, errorSince_internal hreason _ now]
  · intro hreason tE hold hlt
    have hg : graceExpiredCalc info (oldSinceOf fi) now = true := by
      simp [graceExpiredCalc, hstat, hreason, hold, hlt]
    refine ⟨?_, by simp [createCleanTaskByKey], fun db2 => doCleanupTask_force_removes db2 ⟨t.key, now, true⟩ rfl⟩
    rw [doUpdateTask_of_graceExpired hl hbag hbr hc hi hg, finishUpd_of_ne hexec]

theorem claim_C1_amended_witness :
    lookupK "u:f" cexDB.files = some cexFile ∧
    cexFile.bag = some cexBag ∧
    cexOracle.info = some ⟨"error", "internal provider error"⟩ ∧
    doUpdateTask cexDB cexTask cexOracle 5000 = (cexDB, ⟨"u:f", 100, some 5300,
      some (newProviderInfo 0 0 "" ⟨"error", "internal provider error"⟩ none 5000)⟩) :=
  ⟨by decide, by decide, by decide,
    (claim_C1_amended cexDB cexTask cexOracle 5000 cexFile cexBag 0 0 0 ""
      ⟨"error", "internal provider error"⟩ (by decide) (by decide) (by decide) (by decide)
      (by decide) (by decide) (by decide)).1 (by decide)⟩

/-! ## C9: the per-user pending-upload quota -/

theorem pendingLoop_iff (fs : List FileInfo) :
    ∀ n, n < 3 → (pendingLoop n fs = true ↔ 3 ≤ n + fs.countP isPending) := by
  induction fs with
  | nil =>
    intro n hn
    simp only [pendingLoop, List.countP_nil]
    constructor
    · intro h
      cases h
    · intro h
      omega
  | cons f fs ih =>
    intro n hn
    rw [pendingLoop, List.countP_cons]
    cases hp : isPending f with
    | true =>
      simp only [hp, if_true]
      by_cases h3 : 3 ≤ n + 1
      · rw [if_pos h3]
        constructor
        · intro _
          omega
        · intro _
          rfl
      · rw [if_neg h3, ih (n + 1) (by omega)]
        omega
    | false =>
      simp only [hp, Bool.false_eq_true, if_false]
      have h3 : ¬3 ≤ n := by omega
      rw [if_neg h3, ih n hn]
      omega

/-- C9: `StoreFile` rejects an upload with "too many pending files" — in
particular touching neither the store nor the upload directory — exactly
when the owner already has at least three files that have no provider info
yet or whose provider status is "error"; below that count a (valid,
non-duplicate) upload writes the on-disk file and the New record with its
store task. -/
theorem claim_C9_pending_limit :
    ∀ (cleanBase : String → String) (s : SState) (userAddr fileName : String) (now : Int),
      fileName.length ≤ 1000 →
      (cleanBase fileName == "." || cleanBase fileName == ""
        || hasSubstr (cleanBase fileName) ".."
        || (cleanBase fileName).data.contains '/') = false →
      ((3 ≤ (getFilesByUser s.db userAddr).countP isPending →
        storeFileSvc cleanBase s userAddr fileName now = (s, some "too many pending files"))
      ∧ ((getFilesByUser s.db userAddr).countP isPending < 3 →
        lookupK (fileKey userAddr (cleanBase fileName)) s.db.files = none →
        storeFileSvc cleanBase s userAddr fileName now =
          ({ db :=
               { s.db with
                 files := putK (fileKey userAddr (cleanBase fileName))
                   (mkNewFileInfo userAddr (cleanBase fileName) now) s.db.files,
                 storeTasks :=
                   putK (fileKey userAddr (cleanBase fileName)) () s.db.storeTasks },
             disk := (userAddr ++ "/" ++ cleanBase fileName)
               :: s.disk.filter (fun p => p ≠ userAddr ++ "/" ++ cleanBase fileName) },
            none))) := by
  intro cleanBase s userAddr fileName now hlen hvalid
  have hnotlong : ¬1000 < fileName.length := by omega
  constructor
  · intro hcnt
    have hpl : pendingLoop 0 (getFilesByUser s.db userAddr) = true := by
      rw [pendingLoop_iff _ 0 (by omega)]
      omega
    simp only [storeFileSvc, if_neg hnotlong, hvalid, Bool.false_eq_true, if_false, hpl,
      if_true]
  · intro hcnt hnone
    have hpl : pendingLoop 0 (getFilesByUser s.db userAddr) = false := by
      cases hx : pendingLoop 0 (getFilesByUser s.db userAddr) with
      | false => rfl
      | true =>
        rw [pendingLoop_iff _ 0 (by omega)] at hx
        omega
    rw [fileKey] at hnone
    simp only [storeFileSvc, if_neg hnotlong, hvalid, Bool.false_eq_true, if_false, hpl,
      storeFileInfo, mkNewFileInfo, hnone, fileKey]

/-- A user with three files still waiting for provider info. -/
def pendingDB : DB :=
  ⟨[("u:f1", mkNewFileInfo "u" "f1" 0), ("u:f2", mkNewFileInfo "u" "f2" 0),
    ("u:f3", mkNewFileInfo "u" "f3" 0)], [], [], [], [], []⟩

theorem claim_C9_pending_limit_witness :
    ("f4".length ≤ 1000) ∧
    (getFilesByUser pendingDB "u").countP isPending = 3 ∧
    storeFileSvc (fun s => s) ⟨pendingDB, []⟩ "u" "f4" 50
      = (⟨pendingDB, []⟩, some "too many pending files") :=
  ⟨by decide, by decide,
    (claim_C9_pending_limit (fun s => s) ⟨pendingDB, []⟩ "u" "f4" 50 (by decide)
      (by decide)).1 (by decide)⟩

/-! ## C10: listing hides expired not-yet-paid records -/

theorem mem_insertBy {α : Type} (le : α → α → Bool) (a x : α) (l : List α) :
    x ∈ insertBy le a l ↔ x = a ∨ x ∈ l := by
  induction l with
  | nil => simp [insertBy]
  | cons b bs ih =>
    rw [insertBy]
    split
    · simp
    · simp only [List.mem_cons, ih]
      tauto

theorem mem_sortBy {α : Type} (le : α → α → Bool) (x : α) (l : List α) :
    x ∈ sortBy le l ↔ x ∈ l := by
  induction l with
  | nil => simp [sortBy]
  | cons a as ih =>
    rw [sortBy, mem_insertBy, ih]
    simp

/-- C10: `ListFilesByUser` silently omits every file at state Bagged or
below whose `createdAt` plus the 15-minute grace period lies strictly in
the past, even though the record is still in the store; a file at state
Stored is never filtered out by this rule and always appears in the
listing. -/
theorem claim_C10_listing :
    ∀ (db : DB) (userAddr : String) (now : Int) (f : FileInfo),
      (f.state ≤ FileStateBag → f.createdAt + freeStoreSec < now →
        f ∉ (getFilesByUser db userAddr).filter (visibleFile now))
      ∧ (f ∈ getFilesByUser db userAddr → f.state = FileStateStored →
        toUserFileInfo f ∈ listFilesByUser db userAddr now) := by
  intro db userAddr now f
  constructor
  · intro hst hexp hmem
    have hv := (List.mem_filter.mp hmem).2
    simp [visibleFile, hst, hexp] at hv
  · intro hmem hst
    have hv : visibleFile now f = true := by
      simp [visibleFile, hst, FileStateBag, FileStateStored]
    rw [listFilesByUser, mem_sortBy]
    exact List.mem_map_of_mem _ (List.mem_filter.mpr ⟨hmem, hv⟩)

/-- A packaged-but-unpaid record created at time 0 (expired by time 2000). -/
def expiredRec : FileInfo :=
  ⟨FileStateBag, "", "u", some demoBag, "old", 0, none, "ct"⟩

/-- A Stored record of the same user. -/
def storedRec : FileInfo :=
  ⟨FileStateStored, "", "u", some demoBag, "new", 100,
    some ⟨"1", "2", "active", "", "", 150, none⟩, "ct"⟩

/-- Store holding both records. -/
def listDB : DB :=
  ⟨[("u:old", expiredRec), ("u:new", storedRec)], [("68", ⟨2, "a"⟩)], [], [], [], []⟩

theorem claim_C10_listing_witness :
    expiredRec.state ≤ FileStateBag ∧ expiredRec.createdAt + freeStoreSec < 2000 ∧
    expiredRec ∉ (getFilesByUser listDB "u").filter (visibleFile 2000) ∧
    storedRec ∈ getFilesByUser listDB "u" ∧
    toUserFileInfo storedRec ∈ listFilesByUser listDB "u" 2000 :=
  ⟨by decide, by decide,
    (claim_C10_listing listDB "u" 2000 expiredRec).1 (by decide) (by decide),
    by decide,
    (claim_C10_listing listDB "u" 2000 storedRec).2 (by decide) (by decide)⟩

end TonProviderWeb
